import Mathlib

/-!
Verification of the Companies House bulk loader (`workspace/generated/data_mapper.py`).

The development shallowly embeds the loader pipeline: the pure field
normalizers (`parse_date`, `parse_sic_code`, `get_country_code`,
`clean_string`), the batch assembler (`batch_generator`), the schema
initialization phase (`create_constraints_and_indexes`), the per-entity
loaders (`create_company_nodes`, `create_address_nodes_and_relationships`,
`create_company_sic_relationships`,
`create_previous_name_nodes_and_relationships`), the SIC-code extraction
pre-pass (`extract_and_create_sic_codes`), and the `main` orchestrator.

The graph store is modelled as tables of merge-keyed nodes plus
relationship lists; Cypher `MERGE`/`SET` become create-or-update
operations on those tables, `MATCH` preconditions become guards.
Stateful Python code becomes explicit state passing; functions that can
raise become `Except`-valued.
-/

set_option maxRecDepth 4000

namespace DataMapper

/-! ## Python string primitives -/

/-- Python whitespace, as stripped by `str.strip()`. -/
def pyIsSpace (c : Char) : Bool :=
  c == ' ' || c == '\t' || c == '\n' || c == '\r' || c == '\x0b' || c == '\x0c'

/-- Python `str.strip()`: drop leading and trailing whitespace. -/
def pyStrip (s : String) : String :=
  String.mk (((s.data.dropWhile pyIsSpace).reverse.dropWhile pyIsSpace).reverse)

/-- Python `str.lower()` (ASCII range, which is all the loader relies on). -/
def pyLower (s : String) : String :=
  String.mk (s.data.map Char.toLower)

/-- Python `str.upper()` (ASCII range). -/
def pyUpper (s : String) : String :=
  String.mk (s.data.map Char.toUpper)

/-- `needle` occurs as a contiguous substring of `hay`
(Python's `needle in hay`). -/
def containsSub (hay needle : List Char) : Bool :=
  match hay with
  | [] => needle.isEmpty
  | _ :: t => needle.isPrefixOf hay || containsSub t needle

/-! ## Field normalizers (`data_mapper.py`, utility section) -/

/-- `clean_string(value)`: trim whitespace; `None` when the input or the
trimmed result is empty. -/
def clean_string (value : String) : Option String :=
  if value = "" then none
  else
    let cleaned := pyStrip value
    if cleaned = "" then none else some cleaned

/-- Days in a month, with the Gregorian leap rule
(`datetime`'s calendar). -/
def daysInMonth (y m : Nat) : Nat :=
  if m = 2 then
    if y % 4 = 0 && (y % 100 != 0 || y % 400 = 0) then 29 else 28
  else if m = 4 || m = 6 || m = 9 || m = 11 then 30
  else 31

def digitVal (c : Char) : Nat := c.toNat - '0'.toNat

def digitsToNat (ds : List Char) : Nat :=
  ds.foldl (fun n c => n * 10 + digitVal c) 0

/-- The day field of `strptime`'s `%d` (1 or 2 digits, value 1..31),
returning the parses in the regex's greedy order together with the
unconsumed input. -/
def dayParses (cs : List Char) : List (Nat × List Char) :=
  match cs with
  | c1 :: c2 :: rest =>
    let two :=
      if c1.isDigit && c2.isDigit then
        let v := digitVal c1 * 10 + digitVal c2
        if 1 ≤ v && v ≤ 31 then [(v, rest)] else []
      else []
    let one :=
      if c1.isDigit && 1 ≤ digitVal c1 then [(digitVal c1, c2 :: rest)] else []
    two ++ one
  | [c1] =>
    if c1.isDigit && 1 ≤ digitVal c1 then [(digitVal c1, [])] else []
  | [] => []

/-- The month field of `strptime`'s `%m` (1 or 2 digits, value 1..12). -/
def monthParses (cs : List Char) : List (Nat × List Char) :=
  match cs with
  | c1 :: c2 :: rest =>
    let two :=
      if c1.isDigit && c2.isDigit then
        let v := digitVal c1 * 10 + digitVal c2
        if 1 ≤ v && v ≤ 12 then [(v, rest)] else []
      else []
    let one :=
      if c1.isDigit && 1 ≤ digitVal c1 then [(digitVal c1, c2 :: rest)] else []
    two ++ one
  | [c1] =>
    if c1.isDigit && 1 ≤ digitVal c1 then [(digitVal c1, [])] else []
  | [] => []

/-- The year field of `strptime`'s `%Y`: exactly four digits. -/
def yearParse (cs : List Char) : Option (Nat × List Char) :=
  match cs with
  | a :: b :: c :: d :: rest =>
    if a.isDigit && b.isDigit && c.isDigit && d.isDigit then
      some (digitVal a * 1000 + digitVal b * 100 + digitVal c * 10 + digitVal d, rest)
    else none
  | _ => none

def expectSlash (cs : List Char) : Option (List Char) :=
  match cs with
  | '/' :: rest => some rest
  | _ => none

/-- `strptime(s, "%d/%m/%Y")` on a whole string, with the regex engine's
backtracking over the 1-vs-2-digit day/month fields. -/
def strptimeDMY (cs : List Char) : Option (Nat × Nat × Nat) :=
  (dayParses cs).firstM (fun dp =>
    (expectSlash dp.2).bind (fun r1 =>
      (monthParses r1).firstM (fun mp =>
        (expectSlash mp.2).bind (fun r2 =>
          (yearParse r2).bind (fun yp =>
            if yp.2 = [] && dp.1 ≤ daysInMonth yp.1 mp.1 then
              some (dp.1, mp.1, yp.1)
            else none)))))

def padNat (width n : Nat) : String :=
  let s := toString n
  String.mk (List.replicate (width - s.length) '0') ++ s

/-- `parse_date(date_str)`: UK `DD/MM/YYYY` to ISO `YYYY-MM-DD`,
`None` when blank or invalid. -/
def parse_date (date_str : String) : Option String :=
  if date_str = "" ∨ pyStrip date_str = "" then none
  else
    match strptimeDMY (pyStrip date_str).data with
    | some (d, m, y) => some (padNat 4 y ++ "-" ++ padNat 2 m ++ "-" ++ padNat 2 d)
    | none => none

/-- The regex `^(\d+)\s*-\s*(.+)$` of `parse_sic_code`, specialised to a
stripped subject (so there is no trailing whitespace or newline, which
makes the greedy parse exact): the leading digit run, then optional
whitespace, a dash, optional whitespace, and a nonempty remainder that
`.`/`$` can match (no interior newline). -/
def sicRegexMatch (cs : List Char) : Option (List Char × List Char) :=
  let ds := cs.takeWhile Char.isDigit
  let rest := cs.dropWhile Char.isDigit
  if ds.isEmpty then none
  else
    match rest.dropWhile pyIsSpace with
    | '-' :: r2 =>
      let body := r2.dropWhile pyIsSpace
      if body.isEmpty || body.contains '\n' then none else some (ds, body)
    | _ => none

/-- `parse_sic_code(sic_text)`: parse `"CODE - Description"`, bare digit
codes, and the "none" sentinels; `(None, None)` otherwise. -/
def parse_sic_code (sic_text : String) : Option String × Option String :=
  if sic_text = "" ∨ pyStrip sic_text = "" then (none, none)
  else if pyLower (pyStrip sic_text) = "none supplied" ∨
      pyLower (pyStrip sic_text) = "none" ∨ pyLower (pyStrip sic_text) = "" then
    (none, none)
  else
    match sicRegexMatch (pyStrip sic_text).data with
    | some (code, desc) => (some (String.mk code), some (pyStrip (String.mk desc)))
    | none =>
      if (pyStrip sic_text).data ≠ [] ∧ (pyStrip sic_text).data.all Char.isDigit = true then
        (some (pyStrip sic_text), none)
      else (none, none)

/-- The `COUNTRY_CODES` lookup table. -/
def COUNTRY_CODES : List (String × String) :=
  [("united kingdom", "GB"), ("england", "GB"), ("wales", "GB"),
   ("scotland", "GB"), ("northern ireland", "GB"), ("great britain", "GB"),
   ("uk", "GB"), ("united states", "US"), ("usa", "US"), ("ireland", "IE"),
   ("france", "FR"), ("germany", "DE"), ("netherlands", "NL"),
   ("belgium", "BE"), ("spain", "ES"), ("italy", "IT"), ("portugal", "PT"),
   ("switzerland", "CH"), ("austria", "AT"), ("sweden", "SE"),
   ("norway", "NO"), ("denmark", "DK"), ("finland", "FI"), ("poland", "PL"),
   ("czech republic", "CZ"), ("hungary", "HU"), ("romania", "RO"),
   ("bulgaria", "BG"), ("greece", "GR"), ("cyprus", "CY"), ("malta", "MT"),
   ("luxembourg", "LU"), ("jersey", "JE"), ("guernsey", "GG"),
   ("isle of man", "IM"), ("gibraltar", "GI"),
   ("virgin islands, british", "VG"), ("cayman islands", "KY"),
   ("bermuda", "BM"), ("bahamas", "BS"), ("hong kong", "HK"),
   ("singapore", "SG"), ("australia", "AU"), ("new zealand", "NZ"),
   ("canada", "CA"), ("india", "IN"), ("china", "CN"), ("japan", "JP"),
   ("south africa", "ZA"), ("united arab emirates", "AE"), ("israel", "IL"),
   ("russia", "RU"), ("ukraine", "UA"), ("brazil", "BR"), ("mexico", "MX")]

/-- `get_country_code(country_name)`: dictionary lookup on the stripped,
lowercased name, with the first two characters of the uppercased input as
fallback; `None` for the empty input. -/
def get_country_code (country_name : String) : Option String :=
  if country_name = "" then none
  else
    match List.lookup (pyLower (pyStrip country_name)) COUNTRY_CODES with
    | some code => some code
    | none => some ((pyUpper country_name).take 2)

/-! ## Batch assembler -/

/-- Records per batch (`BATCH_SIZE = 2000`). -/
def BATCH_SIZE : Nat := 2000

/-- The loop of `batch_generator`: accumulate into `batch`, flush when it
reaches `batch_size`, flush the remainder at the end if nonempty. -/
def batchLoop (batch_size : Nat) (batch : List α) : List α → List (List α)
  | [] => if batch.isEmpty then [] else [batch]
  | item :: rest =>
    let batch' := batch ++ [item]
    if batch_size ≤ batch'.length then batch' :: batchLoop batch_size [] rest
    else batchLoop batch_size batch' rest

/-- `batch_generator(iterable, batch_size)`. -/
def batch_generator (l : List α) (batch_size : Nat) : List (List α) :=
  batchLoop batch_size [] l

theorem batchLoop_join (b : Nat) :
    ∀ (l batch : List α), (batchLoop b batch l).flatten = batch ++ l
  | [], batch => by
    unfold batchLoop
    split
    · next he => simp [List.isEmpty_iff.mp he]
    · simp
  | x :: xs, batch => by
    simp only [batchLoop]
    split
    · simp [batchLoop_join b xs []]
    · simpa using batchLoop_join b xs (batch ++ [x])

theorem batch_generator_join (l : List α) (b : Nat) :
    (batch_generator l b).flatten = l := by
  simpa using batchLoop_join b l []

theorem batchLoop_length (b : Nat) (hb : 0 < b) :
    ∀ (l batch : List α), batch.length < b →
      (batchLoop b batch l).length = (batch.length + l.length + b - 1) / b
  | [], batch, h => by
    unfold batchLoop
    split
    · next he =>
      simp [List.isEmpty_iff.mp he, Nat.div_eq_of_lt (by omega : b - 1 < b)]
    · next he =>
      have h1 : 1 ≤ batch.length := by
        cases batch with
        | nil => simp at he
        | cons => simp
      have hnum : batch.length + 0 + b - 1 = (batch.length - 1) + b := by omega
      simp only [List.length_nil, List.length_cons, hnum]
      rw [Nat.add_div_right _ hb, Nat.div_eq_of_lt (by omega : batch.length - 1 < b)]
  | x :: xs, batch, h => by
    simp only [batchLoop]
    split
    · next hle =>
      have hfull : batch.length + 1 = b := by
        simp only [List.length_append, List.length_cons, List.length_nil] at hle
        omega
      have ih := batchLoop_length b hb xs ([] : List α) (by simpa using hb)
      simp only [List.length_cons, ih, List.length_nil]
      have hnum : batch.length + (xs.length + 1) + b - 1 = (0 + xs.length + b - 1) + b := by
        omega
      rw [hnum, Nat.add_div_right _ hb]
    · next hlt =>
      have hlt' : (batch ++ [x]).length < b := by omega
      have ih := batchLoop_length b hb xs (batch ++ [x]) hlt'
      rw [ih]
      congr 1
      simp only [List.length_append, List.length_cons, List.length_nil]
      omega

theorem batch_generator_length (l : List α) (b : Nat) (hb : 0 < b) :
    (batch_generator l b).length = (l.length + b - 1) / b := by
  simpa using batchLoop_length b hb l [] (by simpa using hb)

theorem batchLoop_sizes (b : Nat) (hb : 0 < b) :
    ∀ (l batch : List α), batch.length < b →
      (∀ c ∈ (batchLoop b batch l).dropLast, c.length = b) ∧
      (∀ c ∈ batchLoop b batch l, c ≠ [] ∧ c.length ≤ b)
  | [], batch, h => by
    unfold batchLoop
    split
    · simp
    · next he =>
      refine ⟨by simp, ?_⟩
      intro c hc
      simp only [List.mem_singleton] at hc
      subst hc
      exact ⟨fun hnil => he (by simp [hnil]), le_of_lt h⟩
  | x :: xs, batch, h => by
    simp only [batchLoop]
    split
    · next hle =>
      have hfull : (batch ++ [x]).length = b := by
        simp only [List.length_append, List.length_cons, List.length_nil] at hle ⊢
        omega
      have ih := batchLoop_sizes b hb xs ([] : List α) (by simpa using hb)
      constructor
      · intro c hc
        cases hr : batchLoop b ([] : List α) xs with
        | nil => rw [hr] at hc; simp at hc
        | cons y ys =>
          rw [hr, List.dropLast_cons₂] at hc
          rcases List.mem_cons.mp hc with rfl | hc'
          · exact hfull
          · exact ih.1 c (by rw [hr]; exact hc')
      · intro c hc
        rcases List.mem_cons.mp hc with rfl | hc'
        · exact ⟨by simp, le_of_eq hfull⟩
        · exact ih.2 c hc'
    · next hlt =>
      have hlt' : (batch ++ [x]).length < b := by omega
      exact batchLoop_sizes b hb xs (batch ++ [x]) hlt'

/-- C6: the Batch Assembler emits `ceil(N/B)` batches, every batch except
possibly the last has exactly `B` elements, no batch is empty, none
exceeds `B`, and concatenating the batches reproduces the input. -/
theorem batch_generator_spec (l : List α) (b : Nat) (hb : 0 < b) :
    (batch_generator l b).length = (l.length + b - 1) / b ∧
    (∀ c ∈ (batch_generator l b).dropLast, c.length = b) ∧
    (∀ c ∈ batch_generator l b, c ≠ [] ∧ c.length ≤ b) ∧
    (batch_generator l b).flatten = l := by
  have hs := batchLoop_sizes b hb l ([] : List α) (by simpa using hb)
  exact ⟨batch_generator_length l b hb, hs.1, hs.2, batch_generator_join l b⟩

/-! ## Character-class and takeWhile facts used for the normalizers -/

theorem toNat_bounds_of_isDigit {c : Char} (h : c.isDigit = true) :
    48 ≤ c.toNat ∧ c.toNat ≤ 57 := by
  simp only [Char.isDigit, ge_iff_le, Bool.and_eq_true, decide_eq_true_eq] at h
  obtain ⟨h1, h2⟩ := h
  rw [UInt32.le_def, BitVec.le_def] at h1 h2
  exact ⟨h1, h2⟩

theorem toLower_of_isDigit {c : Char} (h : c.isDigit = true) : c.toLower = c := by
  have hb := toNat_bounds_of_isDigit h
  unfold Char.toLower
  rw [if_neg (by omega)]

theorem pyIsSpace_false_of_isDigit {c : Char} (h : c.isDigit = true) :
    pyIsSpace c = false := by
  have hb := toNat_bounds_of_isDigit h
  unfold pyIsSpace
  have hne : ∀ d : Char, d.toNat < 48 → (c == d) = false := by
    intro d hd
    cases hcd : c == d with
    | false => rfl
    | true => exact absurd (congrArg Char.toNat (eq_of_beq hcd)) (by omega)
  rw [hne ' ' (by decide), hne '\t' (by decide), hne '\n' (by decide),
    hne '\r' (by decide), hne '\x0b' (by decide), hne '\x0c' (by decide)]
  rfl

theorem all_takeWhile_self (p : α → Bool) : ∀ l : List α, (l.takeWhile p).all p = true
  | [] => rfl
  | x :: xs => by
    rw [List.takeWhile_cons]
    cases hp : p x with
    | false => rfl
    | true => simp [hp, all_takeWhile_self p xs]

theorem takeWhile_eq_self_of_all (p : α → Bool) :
    ∀ l : List α, l.all p = true → l.takeWhile p = l
  | [], _ => rfl
  | x :: xs, h => by
    simp only [List.all_cons, Bool.and_eq_true] at h
    rw [List.takeWhile_cons, h.1]
    simp [takeWhile_eq_self_of_all p xs h.2]

theorem dropWhile_eq_nil_of_all (p : α → Bool) :
    ∀ l : List α, l.all p = true → l.dropWhile p = []
  | [], _ => rfl
  | x :: xs, h => by
    simp only [List.all_cons, Bool.and_eq_true] at h
    rw [List.dropWhile_cons, h.1]
    exact dropWhile_eq_nil_of_all p xs h.2

theorem dropWhile_eq_self_of_none (p : α → Bool) :
    ∀ l : List α, (∀ c ∈ l, p c = false) → l.dropWhile p = l
  | [], _ => rfl
  | x :: xs, h => by
    rw [List.dropWhile_cons, h x (by simp)]
    simp

theorem string_mk_data (s : String) : String.mk s.data = s := by
  cases s
  rfl

theorem string_mk_eq_empty_iff (l : List Char) : String.mk l = "" ↔ l = [] := by
  constructor
  · intro h
    simpa using congrArg String.data h
  · intro h
    subst h
    rfl

/-! ## The shape of `parse_sic_code` results -/

theorem sicRegexMatch_digits {cs code desc : List Char}
    (h : sicRegexMatch cs = some (code, desc)) :
    code ≠ [] ∧ code.all Char.isDigit = true := by
  simp only [sicRegexMatch] at h
  split at h
  · exact absurd h (by simp)
  · next he =>
    split at h
    · split at h
      · exact absurd h (by simp)
      · simp only [Option.some.injEq, Prod.mk.injEq] at h
        obtain ⟨h1, _⟩ := h
        subst h1
        exact ⟨fun hn => he (by simp [hn]), all_takeWhile_self _ _⟩
    · exact absurd h (by simp)

/-- Every `parse_sic_code` result is `(None, None)`, a bare digit code with
no description, or a digit code with a description. -/
theorem parse_sic_code_classes (s : String) :
    parse_sic_code s = (none, none) ∨
    (∃ code, parse_sic_code s = (some code, none) ∧
      code ≠ "" ∧ code.data.all Char.isDigit = true) ∨
    (∃ code desc, parse_sic_code s = (some code, some desc) ∧
      code ≠ "" ∧ code.data.all Char.isDigit = true) := by
  unfold parse_sic_code
  split
  · exact Or.inl rfl
  · split
    · exact Or.inl rfl
    · split
      · next code desc hm =>
        right; right
        refine ⟨String.mk code, pyStrip (String.mk desc), rfl, ?_, ?_⟩
        · exact fun hc => (sicRegexMatch_digits hm).1 ((string_mk_eq_empty_iff code).mp hc)
        · exact (sicRegexMatch_digits hm).2
      · split
        · next hd =>
          right; left
          exact ⟨pyStrip s, rfl, fun hc => hd.1 (by simpa using congrArg String.data hc), hd.2⟩
        · exact Or.inl rfl

theorem parse_sic_code_fst_ne_empty {s code : String}
    (h : (parse_sic_code s).1 = some code) : code ≠ "" := by
  rcases parse_sic_code_classes s with hc | ⟨c, hc, hne, _⟩ | ⟨c, d, hc, hne, _⟩ <;>
    rw [hc] at h
  · exact absurd h (by simp)
  · obtain rfl := Option.some.inj h
    exact hne
  · obtain rfl := Option.some.inj h
    exact hne

theorem pyStrip_of_all_digits {s : String} (h : s.data.all Char.isDigit = true) :
    pyStrip s = s := by
  have hnot : ∀ c ∈ s.data, pyIsSpace c = false := fun c hc =>
    pyIsSpace_false_of_isDigit (by simpa using List.all_eq_true.mp h c hc)
  unfold pyStrip
  rw [dropWhile_eq_self_of_none pyIsSpace s.data hnot,
    dropWhile_eq_self_of_none pyIsSpace s.data.reverse
      (fun c hc => hnot c (List.mem_reverse.mp hc)),
    List.reverse_reverse, string_mk_data]

theorem pyLower_of_all_digits {s : String} (h : s.data.all Char.isDigit = true) :
    pyLower s = s := by
  unfold pyLower
  rw [List.map_congr_left
      (show ∀ c ∈ s.data, Char.toLower c = id c from fun c hc =>
        toLower_of_isDigit (by simpa using List.all_eq_true.mp h c hc)),
    List.map_id, string_mk_data]

/-- A nonempty all-digit string takes the bare-digit branch of
`parse_sic_code`. -/
theorem parse_sic_code_of_digits (s : String) (hne : s.data ≠ [])
    (hdig : s.data.all Char.isDigit = true) :
    parse_sic_code s = (some s, none) := by
  have hstrip : pyStrip s = s := pyStrip_of_all_digits hdig
  have hsne : s ≠ "" := fun hc => hne (by simpa using congrArg String.data hc)
  unfold parse_sic_code
  rw [if_neg (by rw [hstrip]; exact fun hc => hc.elim hsne hsne)]
  rw [hstrip]
  rw [if_neg ?hsent]
  case hsent =>
    rw [pyLower_of_all_digits hdig]
    rintro (hc | hc | hc)
    · subst hc; revert hdig; decide
    · subst hc; revert hdig; decide
    · exact hsne hc
  have hmatch : sicRegexMatch s.data = none := by
    simp only [sicRegexMatch]
    rw [takeWhile_eq_self_of_all _ _ hdig, dropWhile_eq_nil_of_all _ _ hdig]
    rw [if_neg (by simpa using hne)]
    simp [List.dropWhile]
  rw [hmatch]
  rw [if_pos ⟨hne, hdig⟩]

/-! ## Decomposition of the dash-shaped subjects -/

theorem isDigit_false_of_pyIsSpace {c : Char} (h : pyIsSpace c = true) :
    c.isDigit = false := by
  simp only [pyIsSpace, Bool.or_eq_true, beq_iff_eq] at h
  rcases h with ((((h | h) | h) | h) | h) | h <;> subst h <;> decide

theorem takeWhile_append_all (p : α → Bool) :
    ∀ l1 l2 : List α, l1.all p = true →
      (l1 ++ l2).takeWhile p = l1 ++ l2.takeWhile p
  | [], _, _ => rfl
  | x :: xs, l2, h => by
    simp only [List.all_cons, Bool.and_eq_true] at h
    simp [List.cons_append, List.takeWhile_cons, h.1,
      takeWhile_append_all p xs l2 h.2]

theorem dropWhile_append_all (p : α → Bool) :
    ∀ l1 l2 : List α, l1.all p = true →
      (l1 ++ l2).dropWhile p = l2.dropWhile p
  | [], _, _ => rfl
  | x :: xs, l2, h => by
    simp only [List.all_cons, Bool.and_eq_true] at h
    simp [List.cons_append, List.dropWhile_cons, h.1,
      dropWhile_append_all p xs l2 h.2]

theorem dropWhile_idem (p : α → Bool) :
    ∀ l : List α, (l.dropWhile p).dropWhile p = l.dropWhile p
  | [] => rfl
  | x :: xs => by
    rw [List.dropWhile_cons]
    cases hp : p x with
    | true => simp [hp, dropWhile_idem p xs]
    | false => simp [List.dropWhile_cons, hp]

theorem takeWhile_digit_of_ws_dash (w : List Char) (hw : w.all pyIsSpace = true)
    (y : List Char) : (w ++ '-' :: y).takeWhile Char.isDigit = [] := by
  cases w with
  | nil => simp [List.takeWhile_cons, (by decide : ('-' : Char).isDigit = false)]
  | cons c w' =>
    simp only [List.all_cons, Bool.and_eq_true] at hw
    simp [List.takeWhile_cons, isDigit_false_of_pyIsSpace hw.1]

theorem dropWhile_digit_of_ws_dash (w : List Char) (hw : w.all pyIsSpace = true)
    (y : List Char) : (w ++ '-' :: y).dropWhile Char.isDigit = w ++ '-' :: y := by
  cases w with
  | nil => simp [List.dropWhile_cons, (by decide : ('-' : Char).isDigit = false)]
  | cons c w' =>
    simp only [List.all_cons, Bool.and_eq_true] at hw
    simp [List.dropWhile_cons, isDigit_false_of_pyIsSpace hw.1]

/-- Soundness of the shape: a digit run, optional whitespace, a dash,
optional whitespace and a matchable remainder always match, producing the
digit run and the remainder with leading whitespace dropped. -/
theorem sicRegexMatch_of_decomp (ds w1 w2 body : List Char) (hds : ds ≠ [])
    (hdig : ds.all Char.isDigit = true) (hw1 : w1.all pyIsSpace = true)
    (hw2 : w2.all pyIsSpace = true) (hbody : body.dropWhile pyIsSpace ≠ [])
    (hnl : (body.dropWhile pyIsSpace).contains '\n' = false) :
    sicRegexMatch (ds ++ (w1 ++ '-' :: (w2 ++ body))) =
      some (ds, body.dropWhile pyIsSpace) := by
  have h1 : (ds ++ (w1 ++ '-' :: (w2 ++ body))).takeWhile Char.isDigit = ds := by
    rw [takeWhile_append_all Char.isDigit ds _ hdig,
      takeWhile_digit_of_ws_dash w1 hw1 (w2 ++ body), List.append_nil]
  have h2 : ((ds ++ (w1 ++ '-' :: (w2 ++ body))).dropWhile Char.isDigit).dropWhile
      pyIsSpace = '-' :: (w2 ++ body) := by
    rw [dropWhile_append_all Char.isDigit ds _ hdig,
      dropWhile_digit_of_ws_dash w1 hw1 (w2 ++ body),
      dropWhile_append_all pyIsSpace w1 _ hw1]
    simp [List.dropWhile_cons, (by decide : pyIsSpace '-' = false)]
  have h3 : (w2 ++ body).dropWhile pyIsSpace = body.dropWhile pyIsSpace :=
    dropWhile_append_all pyIsSpace w2 body hw2
  have hgg : ((body.dropWhile pyIsSpace).isEmpty ||
      (body.dropWhile pyIsSpace).contains '\n') ≠ true := by
    intro hcc
    simp only [Bool.or_eq_true] at hcc
    rcases hcc with hcc | hcc
    · exact hbody (by simpa using hcc)
    · rw [hnl] at hcc
      exact Bool.false_ne_true hcc
  simp only [sicRegexMatch, h1, h2]
  rw [if_neg (by simpa using hds)]
  simp only [h3]
  rw [if_neg hgg]

/-- Completeness of the shape: a successful match decomposes the subject
as a digit run, optional whitespace, a dash, optional whitespace and the
description, with the match's guard conditions holding. -/
theorem sicRegexMatch_some_decomp {cs code desc : List Char}
    (h : sicRegexMatch cs = some (code, desc)) :
    ∃ w1 w2, cs = code ++ (w1 ++ '-' :: (w2 ++ desc)) ∧ code ≠ [] ∧
      code.all Char.isDigit = true ∧ w1.all pyIsSpace = true ∧
      w2.all pyIsSpace = true ∧ desc.dropWhile pyIsSpace = desc ∧
      desc ≠ [] ∧ desc.contains '\n' = false := by
  simp only [sicRegexMatch] at h
  split at h
  · exact absurd h (by simp)
  · next he =>
    split at h
    · next r2 heq =>
      split at h
      · exact absurd h (by simp)
      · next hg =>
        simp only [Option.some.injEq, Prod.mk.injEq] at h
        obtain ⟨h1, h2⟩ := h
        subst h1
        subst h2
        refine ⟨(cs.dropWhile Char.isDigit).takeWhile pyIsSpace,
          r2.takeWhile pyIsSpace, ?_, fun hn => he (by simp [hn]),
          all_takeWhile_self _ _, all_takeWhile_self _ _,
          all_takeWhile_self _ _, dropWhile_idem _ _,
          fun hn => hg (by simp [hn]), ?_⟩
        · have e2 : cs.dropWhile Char.isDigit =
              (cs.dropWhile Char.isDigit).takeWhile pyIsSpace ++ ('-' :: r2) := by
            conv_lhs => rw [← List.takeWhile_append_dropWhile pyIsSpace
              (cs.dropWhile Char.isDigit)]
            rw [heq]
          conv_lhs => rw [← List.takeWhile_append_dropWhile Char.isDigit cs, e2,
            ← List.takeWhile_append_dropWhile pyIsSpace r2]
        · cases hc : (r2.dropWhile pyIsSpace).contains '\n' with
          | false => rfl
          | true => exact absurd (by rw [hc, Bool.or_true]) hg
    · exact absurd h (by simp)

/-- Any input whose stripped text decomposes as a digit run, optional
whitespace, a dash, optional whitespace and a matchable remainder parses
to the digit code and the trimmed description. -/
theorem parse_sic_code_dash (s : String) (ds w1 w2 body : List Char)
    (ht : (pyStrip s).data = ds ++ (w1 ++ '-' :: (w2 ++ body)))
    (hds : ds ≠ []) (hdig : ds.all Char.isDigit = true)
    (hw1 : w1.all pyIsSpace = true) (hw2 : w2.all pyIsSpace = true)
    (hbody : body.dropWhile pyIsSpace ≠ [])
    (hnl : (body.dropWhile pyIsSpace).contains '\n' = false) :
    parse_sic_code s =
      (some (String.mk ds),
        some (pyStrip (String.mk (body.dropWhile pyIsSpace)))) := by
  obtain ⟨d, ds', rfl⟩ : ∃ d ds', ds = d :: ds' := by
    cases ds with
    | nil => exact absurd rfl hds
    | cons d t => exact ⟨d, t, rfl⟩
  have hd : d.isDigit = true := by
    have h := hdig
    simp only [List.all_cons, Bool.and_eq_true] at h
    exact h.1
  have hne : (pyStrip s).data ≠ [] := by
    rw [ht]
    simp
  have hs1 : ¬(s = "" ∨ pyStrip s = "") := by
    rintro (rfl | hP)
    · exact hne (by decide)
    · exact hne (by rw [hP])
  have hhead : (pyStrip s).data = d :: (ds' ++ (w1 ++ '-' :: (w2 ++ body))) := by
    rw [ht]
    rfl
  have hheadLower : (pyLower (pyStrip s)).data.head? = some d := by
    unfold pyLower
    rw [hhead]
    simp [toLower_of_isDigit hd]
  have hs2 : ¬(pyLower (pyStrip s) = "none supplied" ∨
      pyLower (pyStrip s) = "none" ∨ pyLower (pyStrip s) = "") := by
    rintro (hsent | hsent | hsent) <;> rw [hsent] at hheadLower
    · have h9 : (("none supplied" : String).data).head? = some 'n' := by decide
      rw [h9] at hheadLower
      have hdn : d = 'n' := (Option.some.inj hheadLower).symm
      subst hdn
      exact absurd hd (by decide)
    · have h9 : (("none" : String).data).head? = some 'n' := by decide
      rw [h9] at hheadLower
      have hdn : d = 'n' := (Option.some.inj hheadLower).symm
      subst hdn
      exact absurd hd (by decide)
    · have h9 : (("" : String).data).head? = (none : Option Char) := by decide
      rw [h9] at hheadLower
      exact absurd hheadLower (by simp)
  have hm : sicRegexMatch (pyStrip s).data =
      some (d :: ds', body.dropWhile pyIsSpace) := by
    rw [ht]
    exact sicRegexMatch_of_decomp (d :: ds') w1 w2 body hds hdig hw1 hw2 hbody hnl
  unfold parse_sic_code
  rw [if_neg hs1, if_neg hs2, hm]

/-- Completeness of `parse_sic_code`: every input either yields
`(None, None)`, or its stripped text is dash-shaped and yields the digit
code with the trimmed description, or its stripped text is a bare digit
run and yields the code alone. -/
theorem parse_sic_code_complete (s : String) :
    parse_sic_code s = (none, none) ∨
    (∃ ds w1 w2 body : List Char,
      (pyStrip s).data = ds ++ (w1 ++ '-' :: (w2 ++ body)) ∧ ds ≠ [] ∧
      ds.all Char.isDigit = true ∧ w1.all pyIsSpace = true ∧
      w2.all pyIsSpace = true ∧ body.dropWhile pyIsSpace ≠ [] ∧
      (body.dropWhile pyIsSpace).contains '\n' = false ∧
      parse_sic_code s =
        (some (String.mk ds),
          some (pyStrip (String.mk (body.dropWhile pyIsSpace))))) ∨
    ((pyStrip s).data ≠ [] ∧ (pyStrip s).data.all Char.isDigit = true ∧
      parse_sic_code s = (some (pyStrip s), none)) := by
  by_cases h1 : s = "" ∨ pyStrip s = ""
  · left
    unfold parse_sic_code
    rw [if_pos h1]
  · by_cases h2 : pyLower (pyStrip s) = "none supplied" ∨
        pyLower (pyStrip s) = "none" ∨ pyLower (pyStrip s) = ""
    · left
      unfold parse_sic_code
      rw [if_neg h1, if_pos h2]
    · cases hm : sicRegexMatch (pyStrip s).data with
      | none =>
        by_cases h3 : (pyStrip s).data ≠ [] ∧ (pyStrip s).data.all Char.isDigit = true
        · right; right
          refine ⟨h3.1, h3.2, ?_⟩
          unfold parse_sic_code
          rw [if_neg h1, if_neg h2, hm]
          dsimp only
          rw [if_pos h3]
        · left
          unfold parse_sic_code
          rw [if_neg h1, if_neg h2, hm]
          dsimp only
          rw [if_neg h3]
      | some cd =>
        obtain ⟨code, desc⟩ := cd
        obtain ⟨w1, w2, hcs, hcne, hcdig, hw1, hw2, hidem, hdne, hdnl⟩ :=
          sicRegexMatch_some_decomp hm
        right; left
        refine ⟨code, w1, w2, desc, hcs, hcne, hcdig, hw1, hw2, ?_, ?_, ?_⟩
        · rw [hidem]
          exact hdne
        · rw [hidem]
          exact hdnl
        · unfold parse_sic_code
          rw [if_neg h1, if_neg h2, hm, hidem]

/-- C7: `parse_sic_code` maps every input whose stripped text has the
shape `"CODE - Description"` (a digit run, optional whitespace, a dash,
optional whitespace, a matchable description) to the digit code and the
trimmed description, the case-insensitive "none" sentinels and
whitespace-only or empty input to `(None, None)`, every bare digit string
to `(code, None)`, and every other input to `(None, None)`: each input
falls into exactly one of those shape classes with the matching result. -/
theorem parse_sic_code_spec :
    parse_sic_code "68209 - Other letting and operating" =
      (some "68209", some "Other letting and operating") ∧
    parse_sic_code "None Supplied" = (none, none) ∧
    parse_sic_code "NONE" = (none, none) ∧
    parse_sic_code "none" = (none, none) ∧
    parse_sic_code "" = (none, none) ∧
    parse_sic_code "   " = (none, none) ∧
    parse_sic_code "12345" = (some "12345", none) ∧
    (∀ s : String,
      pyLower (pyStrip s) = "none supplied" ∨ pyLower (pyStrip s) = "none" ∨
        pyStrip s = "" →
      parse_sic_code s = (none, none)) ∧
    (∀ s : String, s.data ≠ [] → s.data.all Char.isDigit = true →
      parse_sic_code s = (some s, none)) ∧
    (∀ (s : String) (ds w1 w2 body : List Char),
      (pyStrip s).data = ds ++ (w1 ++ '-' :: (w2 ++ body)) → ds ≠ [] →
      ds.all Char.isDigit = true → w1.all pyIsSpace = true →
      w2.all pyIsSpace = true → body.dropWhile pyIsSpace ≠ [] →
      (body.dropWhile pyIsSpace).contains '\n' = false →
      parse_sic_code s =
        (some (String.mk ds),
          some (pyStrip (String.mk (body.dropWhile pyIsSpace))))) ∧
    (∀ s : String,
      parse_sic_code s = (none, none) ∨
      (∃ ds w1 w2 body : List Char,
        (pyStrip s).data = ds ++ (w1 ++ '-' :: (w2 ++ body)) ∧ ds ≠ [] ∧
        ds.all Char.isDigit = true ∧ w1.all pyIsSpace = true ∧
        w2.all pyIsSpace = true ∧ body.dropWhile pyIsSpace ≠ [] ∧
        (body.dropWhile pyIsSpace).contains '\n' = false ∧
        parse_sic_code s =
          (some (String.mk ds),
            some (pyStrip (String.mk (body.dropWhile pyIsSpace))))) ∨
      ((pyStrip s).data ≠ [] ∧ (pyStrip s).data.all Char.isDigit = true ∧
        parse_sic_code s = (some (pyStrip s), none))) := by
  refine ⟨by decide, by decide, by decide, by decide, by decide, by decide,
    by decide, ?_, parse_sic_code_of_digits, parse_sic_code_dash,
    parse_sic_code_complete⟩
  intro s hs
  unfold parse_sic_code
  split
  · rfl
  · next hne =>
    rw [if_pos ?hsent]
    case hsent =>
      rcases hs with h | h | h
      · exact Or.inl h
      · exact Or.inr (Or.inl h)
      · exact absurd (Or.inr h) hne

/-- C7 witness: the sentinel rule at `"  None Supplied "`, the bare-digit
rule at `"12345"`, and the dash-shape rule at the decomposition of
`"68209 - Other letting and operating"`. -/
theorem parse_sic_code_spec_witness :
    ((pyLower (pyStrip "  None Supplied ") = "none supplied" ∨
        pyLower (pyStrip "  None Supplied ") = "none" ∨
        pyStrip "  None Supplied " = "") ∧
      parse_sic_code "  None Supplied " = (none, none)) ∧
    (("12345" : String).data ≠ [] ∧
      ("12345" : String).data.all Char.isDigit = true ∧
      parse_sic_code "12345" = (some "12345", none)) ∧
    ((pyStrip "68209 - Other letting and operating").data =
        ("68209" : String).data ++ ([' '] ++ '-' ::
          ([' '] ++ ("Other letting and operating" : String).data)) ∧
      parse_sic_code "68209 - Other letting and operating" =
        (some (String.mk ("68209" : String).data),
          some (pyStrip (String.mk
            ((("Other letting and operating" : String).data).dropWhile
              pyIsSpace))))) :=
  ⟨⟨Or.inl (by decide),
      parse_sic_code_spec.2.2.2.2.2.2.2.1 "  None Supplied " (Or.inl (by decide))⟩,
    ⟨by decide, by decide,
      parse_sic_code_spec.2.2.2.2.2.2.2.2.1 "12345" (by decide) (by decide)⟩,
    ⟨by decide,
      parse_sic_code_spec.2.2.2.2.2.2.2.2.2.1 "68209 - Other letting and operating"
        ("68209" : String).data [' '] [' ']
        ("Other letting and operating" : String).data
        (by decide) (by decide) (by decide) (by decide) (by decide)
        (by decide) (by decide)⟩⟩

/-! ## `get_country_code` -/

/-- C8: the country-code lookup is case-insensitive on known names,
constituent UK nations share the United Kingdom's code, and unknown
nonempty names fall back to the first two characters of the uppercased
input. -/
theorem get_country_code_spec :
    get_country_code "Scotland" = get_country_code "United Kingdom" ∧
    get_country_code "Scotland" = some "GB" ∧
    get_country_code "England" = some "GB" ∧
    get_country_code "wales" = some "GB" ∧
    get_country_code "NORTHERN IRELAND" = some "GB" ∧
    get_country_code "Atlantis" = some "AT" ∧
    (∀ name code, name ≠ "" →
      List.lookup (pyLower (pyStrip name)) COUNTRY_CODES = some code →
      get_country_code name = some code) ∧
    (∀ name, name ≠ "" →
      List.lookup (pyLower (pyStrip name)) COUNTRY_CODES = none →
      get_country_code name = some ((pyUpper name).take 2)) := by
  refine ⟨by decide, by decide, by decide, by decide, by decide, by decide, ?_, ?_⟩
  · intro name code hne hl
    unfold get_country_code
    rw [if_neg hne, hl]
  · intro name hne hl
    unfold get_country_code
    rw [if_neg hne, hl]

/-- C8 witness: the fallback rule applied at the unknown name
`"Atlantis"`, whose result is the first two uppercased characters. -/
theorem get_country_code_spec_witness :
    (("Atlantis" : String) ≠ "" ∧
      List.lookup (pyLower (pyStrip "Atlantis")) COUNTRY_CODES = none) ∧
    get_country_code "Atlantis" = some ((pyUpper "Atlantis").take 2) :=
  ⟨⟨by decide, by decide⟩,
    get_country_code_spec.2.2.2.2.2.2.2 "Atlantis" (by decide) (by decide)⟩

/-- C6 witness: the batch assembler at a concrete input: 5 elements in
batches of 2 give `ceil(5/2) = 3` batches, full except the last, whose
concatenation restores the input. -/
theorem batch_generator_spec_witness :
    (0 < 2) ∧
    ((batch_generator [10, 20, 30, 40, 50] 2).length = (5 + 2 - 1) / 2 ∧
      (∀ c ∈ (batch_generator [10, 20, 30, 40, 50] 2).dropLast, c.length = 2) ∧
      (∀ c ∈ batch_generator [10, 20, 30, 40, 50] 2, c ≠ [] ∧ c.length ≤ 2) ∧
      (batch_generator [10, 20, 30, 40, 50] 2).flatten = [10, 20, 30, 40, 50]) :=
  ⟨by decide, batch_generator_spec [10, 20, 30, 40, 50] 2 (by decide)⟩

/-! ## Schema initialization (`create_constraints_and_indexes`) -/

/-- The five uniqueness/node-key constraint statements (text normalized to
one line; only the messages of failures matter to the phase's control
flow). -/
def constraintStatements : List String :=
  ["CREATE CONSTRAINT company_number IF NOT EXISTS FOR (c:Company) REQUIRE c.companyNumber IS UNIQUE",
   "CREATE CONSTRAINT address_composite IF NOT EXISTS FOR (a:Address) REQUIRE (a.addressLine1, a.postTown, a.postCode) IS NODE KEY",
   "CREATE CONSTRAINT country_name IF NOT EXISTS FOR (c:Country) REQUIRE c.name IS UNIQUE",
   "CREATE CONSTRAINT sic_code IF NOT EXISTS FOR (s:SICCode) REQUIRE s.code IS UNIQUE",
   "CREATE CONSTRAINT previous_name_composite IF NOT EXISTS FOR (pn:PreviousName) REQUIRE (pn.companyNumber, pn.name, pn.sequence) IS NODE KEY"]

/-- The five secondary index statements. -/
def indexStatements : List String :=
  ["CREATE INDEX company_name IF NOT EXISTS FOR (c:Company) ON (c.name)",
   "CREATE INDEX company_status IF NOT EXISTS FOR (c:Company) ON (c.status)",
   "CREATE INDEX company_category IF NOT EXISTS FOR (c:Company) ON (c.category)",
   "CREATE INDEX address_postcode IF NOT EXISTS FOR (a:Address) ON (a.postCode)",
   "CREATE INDEX address_posttown IF NOT EXISTS FOR (a:Address) ON (a.postTown)"]

/-- One loop iteration of the schema phase: `try: query.run(stmt)` with the
`except` that swallows "already exists" failures and records every other
failure message as a warning. -/
def schemaStep (run : String → Except String Unit) (warns : List String)
    (stmt : String) : List String :=
  match run stmt with
  | Except.ok _ => warns
  | Except.error e =>
    if containsSub (pyLower e).data ("already exists".data) = true then warns
    else warns ++ [e]

/-- `create_constraints_and_indexes(query)`: run the constraint loop then
the index loop; each statement failure is handled inside the loop, so the
function itself always returns normally (with the warning log). -/
def create_constraints_and_indexes (run : String → Except String Unit) :
    Except String (List String) :=
  Except.ok (indexStatements.foldl (schemaStep run)
    (constraintStatements.foldl (schemaStep run) []))

theorem foldl_schemaStep (run : String → Except String Unit) :
    ∀ (l : List String) (w : List String),
      l.foldl (schemaStep run) w = w ++ l.filterMap (fun stmt =>
        match run stmt with
        | Except.ok _ => none
        | Except.error e =>
          if containsSub (pyLower e).data ("already exists".data) = true then none
          else some e)
  | [], w => by simp
  | stmt :: l, w => by
    rw [List.foldl_cons, foldl_schemaStep run l, List.filterMap_cons]
    unfold schemaStep
    cases hr : run stmt with
    | ok a => simp [hr]
    | error e =>
      simp only [hr]
      by_cases hc : containsSub (pyLower e).data ("already exists".data) = true
      · simp [hc]
      · simp [hc]

/-- C1 (amended): the schema phase never propagates a statement failure:
for every store behavior it completes normally, swallowing with no log the
statements whose failure message contains "already exists"
(case-insensitively) and recording a warning for every other failure —
including a store-unreachable failure, which therefore only becomes fatal
in a later phase. -/
theorem create_constraints_and_indexes_spec (run : String → Except String Unit) :
    create_constraints_and_indexes run =
      Except.ok ((constraintStatements ++ indexStatements).filterMap (fun stmt =>
        match run stmt with
        | Except.ok _ => none
        | Except.error e =>
          if containsSub (pyLower e).data ("already exists".data) = true then none
          else some e)) ∧
    ∀ e, create_constraints_and_indexes run ≠ Except.error e := by
  constructor
  · unfold create_constraints_and_indexes
    rw [foldl_schemaStep, foldl_schemaStep, List.filterMap_append]
    simp
  · intro e
    unfold create_constraints_and_indexes
    simp

deriving instance DecidableEq for Except

/-- The failure message of a store that cannot be reached. -/
def unreachableMsg : String :=
  "Unable to connect to bolt://localhost:7687 - connection refused"

/-- A store client whose every statement fails because the store is
unreachable. -/
def unreachableRun : String → Except String Unit :=
  fun _ => Except.error unreachableMsg

/-- C1 counterexample: against an unreachable store, the schema phase does
not raise: it swallows all ten statement failures into warnings and
returns normally, so the error is not propagated to the caller. -/
theorem create_constraints_and_indexes_unreachable_no_raise :
    create_constraints_and_indexes unreachableRun =
      Except.ok (List.replicate 10 unreachableMsg) ∧
    ∀ e, create_constraints_and_indexes unreachableRun ≠ Except.error e := by
  constructor
  · decide
  · intro e
    unfold create_constraints_and_indexes
    simp

/-! ## The `main` orchestrator -/

/-- The observable outcome of one `main()` run: the propagated
result (an `error` is an exception reaching the caller), how many times
the store connection was closed, and how many phases started. -/
structure MainOutcome where
  result : Except String Unit
  closes : Nat
  phasesRun : Nat
deriving DecidableEq

/-- Sequential phase execution inside the `try`: stop at the first phase
that raises. Returns (phases started, final result). -/
def runPhases : List (Except String Unit) → Nat × Except String Unit
  | [] => (0, Except.ok ())
  | p :: ps =>
    match p with
    | Except.error e => (1, Except.error e)
    | Except.ok _ =>
      let r := runPhases ps
      (r.1 + 1, r.2)

/-- `main()`: the missing-file check that logs and returns, the `try`
that acquires the store connection (`get_query()`) and runs the phases,
the `except` that logs and re-raises, and the `finally` that closes the
connection exactly when it was acquired. Phase bodies are abstracted by
their results. -/
def main (fileExists : Bool) (acquire : Except String Unit)
    (phases : List (Except String Unit)) : MainOutcome :=
  if fileExists = false then
    { result := Except.ok (), closes := 0, phasesRun := 0 }
  else
    match acquire with
    | Except.error e => { result := Except.error e, closes := 0, phasesRun := 0 }
    | Except.ok _ =>
      let r := runPhases phases
      { result := r.2, closes := 1, phasesRun := r.1 }

/-- C2: with the input data file absent, `main` returns normally (a
successful, silent outcome apart from the error log): no error is
propagated to the caller, no phase runs, and the connection is never
acquired. The spec instead requires this preflight failure to be fatal
for the run. -/
theorem main_missing_file_returns_ok (acquire : Except String Unit)
    (phases : List (Except String Unit)) :
    main false acquire phases =
      { result := Except.ok (), closes := 0, phasesRun := 0 } := rfl

theorem runPhases_all_ok :
    ∀ (phases : List (Except String Unit)), (∀ p ∈ phases, p = Except.ok ()) →
      runPhases phases = (phases.length, Except.ok ())
  | [], _ => rfl
  | p :: ps, h => by
    rw [h p (by simp)]
    unfold runPhases
    rw [runPhases_all_ok ps (fun q hq => h q (by simp [hq]))]
    simp

theorem runPhases_first_error (e : String) :
    ∀ (pre post : List (Except String Unit)), (∀ p ∈ pre, p = Except.ok ()) →
      runPhases (pre ++ Except.error e :: post) = (pre.length + 1, Except.error e)
  | [], post, _ => rfl
  | p :: pre, post, h => by
    rw [List.cons_append, h p (by simp)]
    unfold runPhases
    rw [runPhases_first_error e pre post (fun q hq => h q (by simp [hq]))]
    simp

/-- C5: once the connection is acquired, `main` closes it exactly once on
every outcome; a failing phase propagates its error to the caller with no
later phase run (and the close still happens); an all-ok run closes once
and succeeds; and when acquisition itself fails nothing is closed. -/
theorem main_cleanup_spec :
    (∀ phases : List (Except String Unit),
      (main true (Except.ok ()) phases).closes = 1) ∧
    (∀ (pre : List (Except String Unit)) (e : String)
        (post : List (Except String Unit)),
      (∀ p ∈ pre, p = Except.ok ()) →
      main true (Except.ok ()) (pre ++ Except.error e :: post) =
        { result := Except.error e, closes := 1, phasesRun := pre.length + 1 }) ∧
    (∀ phases : List (Except String Unit), (∀ p ∈ phases, p = Except.ok ()) →
      main true (Except.ok ()) phases =
        { result := Except.ok (), closes := 1, phasesRun := phases.length }) ∧
    (∀ (e : String) (phases : List (Except String Unit)),
      main true (Except.error e) phases =
        { result := Except.error e, closes := 0, phasesRun := 0 }) := by
  refine ⟨fun phases => rfl, ?_, ?_, fun e phases => rfl⟩
  · intro pre e post h
    unfold main
    rw [if_neg (by simp)]
    rw [runPhases_first_error e pre post h]
  · intro phases h
    unfold main
    rw [if_neg (by simp)]
    rw [runPhases_all_ok phases h]

/-- C5 witness: a concrete run whose second phase fails: the error is
propagated, the third phase never starts, and the connection is closed
exactly once. -/
theorem main_cleanup_spec_witness :
    (∀ p ∈ ([Except.ok ()] : List (Except String Unit)), p = Except.ok ()) ∧
    main true (Except.ok ())
        ([Except.ok ()] ++ Except.error "store unreachable" :: [Except.ok ()]) =
      { result := Except.error "store unreachable", closes := 1, phasesRun := 2 } :=
  ⟨by simp, main_cleanup_spec.2.1 [Except.ok ()] "store unreachable" [Except.ok ()]
    (by simp)⟩

/-! ## CSV rows and the graph store model -/

/-- A CSV row after `stream_csv`'s header cleaning: a partial map from
column name to field text (`none` = column absent). -/
def Row : Type := String → Option String

/-- Python `row.get(col, "")`. -/
def getS (row : Row) (col : String) : String := (row col).getD ""

/-- `row.get(col, "0") or "0"` for the mortgage/partnership counters: the
default replaces both a missing column and an empty value. -/
def counterField (row : Row) (col : String) : String :=
  match row col with
  | none => "0"
  | some s => if s = "" then "0" else s

/-- Modelled collaborator - Cypher's `toInteger()` applied to a string
value: the parsed (optionally signed) integer literal, `null` when the
string is not numeric. -/
def cypherToInteger (s : String) : Option Int :=
  match s.data with
  | [] => none
  | '-' :: ds =>
    if ds ≠ [] ∧ ds.all Char.isDigit = true then some (-(digitsToNat ds : Int))
    else none
  | '+' :: ds =>
    if ds ≠ [] ∧ ds.all Char.isDigit = true then some ((digitsToNat ds : Int))
    else none
  | ds =>
    if ds.all Char.isDigit = true then some ((digitsToNat ds : Int)) else none

/-! ## Entity attribute records -/

/-- The Company node attributes stored by the loader's `SET` clause. -/
structure CompanyAttrs where
  name : Option String
  category : Option String
  status : Option String
  countryOfOrigin : Option String
  incorporationDate : Option String
  dissolutionDate : Option String
  uri : Option String
  accountRefDay : Option String
  accountRefMonth : Option String
  accountsCategory : Option String
  numMortCharges : Option Int
  numMortOutstanding : Option Int
  numMortSatisfied : Option Int
  numGenPartners : Option Int
  numLimPartners : Option Int
deriving DecidableEq

/-- The per-row dictionary `create_company_nodes` sends to the store. -/
structure CompanyParam where
  companyNumber : String
  name : Option String
  category : Option String
  status : Option String
  countryOfOrigin : Option String
  incorporationDate : Option String
  dissolutionDate : Option String
  uri : Option String
  accountRefDay : Option String
  accountRefMonth : Option String
  accountsCategory : Option String
  numMortCharges : String
  numMortOutstanding : String
  numMortSatisfied : String
  numGenPartners : String
  numLimPartners : String
deriving DecidableEq

/-- The Address node attributes stored by the loader's `SET` clause. -/
structure AddressAttrs where
  addressLine2 : Option String
  county : Option String
  country : Option String
  careOf : Option String
  poBox : Option String
deriving DecidableEq

/-- The per-row dictionary of the address loader. -/
structure AddressParam where
  companyNumber : String
  addressLine1 : String
  addressLine2 : Option String
  postTown : String
  county : Option String
  country : Option String
  postCode : String
  careOf : Option String
  poBox : Option String
deriving DecidableEq

/-- How the address loader treats one row. -/
inductive AddrRowCase where
  | param (p : AddressParam)
  | skipAddress
  | skipCompany
deriving DecidableEq

/-- The dictionary built per admissible row in `create_company_nodes`
(`None` when the row is skipped for a null/empty CompanyNumber). -/
def toCompanyParam (row : Row) : Option CompanyParam :=
  match clean_string (getS row "CompanyNumber") with
  | none => none
  | some cn => some
    { companyNumber := cn,
      name := clean_string (getS row "CompanyName"),
      category := clean_string (getS row "CompanyCategory"),
      status := clean_string (getS row "CompanyStatus"),
      countryOfOrigin := clean_string (getS row "CountryOfOrigin"),
      incorporationDate := parse_date (getS row "IncorporationDate"),
      dissolutionDate := parse_date (getS row "DissolutionDate"),
      uri := clean_string (getS row "URI"),
      accountRefDay := clean_string (getS row "Accounts.AccountRefDay"),
      accountRefMonth := clean_string (getS row "Accounts.AccountRefMonth"),
      accountsCategory := clean_string (getS row "Accounts.AccountCategory"),
      numMortCharges := counterField row "Mortgages.NumMortCharges",
      numMortOutstanding := counterField row "Mortgages.NumMortOutstanding",
      numMortSatisfied := counterField row "Mortgages.NumMortSatisfied",
      numGenPartners := counterField row "LimitedPartnerships.NumGenPartners",
      numLimPartners := counterField row "LimitedPartnerships.NumLimPartners" }

/-- The attributes the company `SET` clause stores: scalars pass through,
the date `CASE WHEN ... THEN date(...) ELSE NULL` keeps the optional ISO
date, and the five counters go through `toInteger`. -/
def companyAttrsOf (p : CompanyParam) : CompanyAttrs :=
  { name := p.name, category := p.category, status := p.status,
    countryOfOrigin := p.countryOfOrigin,
    incorporationDate := p.incorporationDate,
    dissolutionDate := p.dissolutionDate,
    uri := p.uri, accountRefDay := p.accountRefDay,
    accountRefMonth := p.accountRefMonth,
    accountsCategory := p.accountsCategory,
    numMortCharges := cypherToInteger p.numMortCharges,
    numMortOutstanding := cypherToInteger p.numMortOutstanding,
    numMortSatisfied := cypherToInteger p.numMortSatisfied,
    numGenPartners := cypherToInteger p.numGenPartners,
    numLimPartners := cypherToInteger p.numLimPartners }

/-- A table of merge-keyed nodes of one label: the insertion-ordered key
list together with the current attribute record per key (`none` = no node
with that key). -/
structure NodeTable (K V : Type) where
  keys : List K
  val : K → Option V

def NodeTable.empty {K V : Type} : NodeTable K V := ⟨[], fun _ => none⟩

/-- Cypher `MERGE` on a node key followed by `SET` of its attributes:
create the node when absent, then overwrite its attributes. -/
def NodeTable.merge {K V : Type} [DecidableEq K] (t : NodeTable K V) (k : K) (v : V) :
    NodeTable K V :=
  { keys := if (t.val k).isSome then t.keys else t.keys ++ [k],
    val := fun q => if q = k then some v else t.val q }

/-- The node count of one label (`MATCH (n:L) RETURN count(n)`). -/
def NodeTable.count {K V : Type} (t : NodeTable K V) : Nat := t.keys.length

/-- A batched sequence of keyed merges. -/
def tableFold {K V : Type} [DecidableEq K] (t : NodeTable K V) (l : List (K × V)) :
    NodeTable K V :=
  l.foldl (fun t p => t.merge p.1 p.2) t

/-- Cypher `MERGE` on one fully-keyed relationship pattern: append the
relationship when no identical one exists. -/
def insertRel {α : Type} [DecidableEq α] (s : List α) (e : α) : List α :=
  if e ∈ s then s else s ++ [e]

/-- `MERGE` of a sequence of fully-keyed relationship patterns. -/
def insFold {α : Type} [DecidableEq α] (s : List α) (l : List α) : List α :=
  l.foldl insertRel s

/-- The graph store state touched by the verified loaders. -/
structure GraphState where
  companies : NodeTable String CompanyAttrs
  addresses : NodeTable (String × String × String) AddressAttrs
  sicNodes : NodeTable String (Option String)
  hasAddressRels : List (String × (String × String × String))
  sicRels : List (String × String × Nat)
  prevNames : NodeTable (String × String × Nat) (Option String)
  prevNameRels : List (String × String × Nat × Option String)

/-! ## `create_company_nodes` -/

/-- One batch of `create_company_nodes`: build `batch_data` (skipping the
rows whose CompanyNumber cleans to nothing), run the batched
`MERGE`/`SET`, and update the processed/skipped counters. -/
def companyBatchStep (acc : GraphState × Nat × Nat) (batch : List Row) :
    GraphState × Nat × Nat :=
  let batch_data := batch.filterMap toCompanyParam
  let st := batch_data.foldl
    (fun st p =>
      { st with companies := st.companies.merge p.companyNumber (companyAttrsOf p) })
    acc.1
  (st, acc.2.1 + batch_data.length, acc.2.2 + (batch.length - batch_data.length))

/-- `create_company_nodes(query, total_rows)` over the row stream: the
resulting store state plus the `processed` and `skipped` counts. -/
def create_company_nodes (st : GraphState) (rows : List Row) :
    GraphState × Nat × Nat :=
  (batch_generator rows BATCH_SIZE).foldl companyBatchStep (st, 0, 0)

/-! ## `create_address_nodes_and_relationships` -/

/-- Row classification of the address loader: the CompanyNumber check
comes first, then the three composite-key address fields. -/
def classifyAddrRow (row : Row) : AddrRowCase :=
  match clean_string (getS row "CompanyNumber") with
  | none => AddrRowCase.skipCompany
  | some cn =>
    match clean_string (getS row "RegAddress.AddressLine1"),
        clean_string (getS row "RegAddress.PostTown"),
        clean_string (getS row "RegAddress.PostCode") with
    | some l1, some pt, some pc =>
      AddrRowCase.param
        { companyNumber := cn,
          addressLine1 := l1,
          addressLine2 := clean_string (getS row "RegAddress.AddressLine2"),
          postTown := pt,
          county := clean_string (getS row "RegAddress.County"),
          country := clean_string (getS row "RegAddress.Country"),
          postCode := pc,
          careOf := clean_string (getS row "RegAddress.CareOf"),
          poBox := clean_string (getS row "RegAddress.POBox") }
    | _, _, _ => AddrRowCase.skipAddress

def addrParamOf (row : Row) : Option AddressParam :=
  match classifyAddrRow row with
  | AddrRowCase.param p => some p
  | _ => none

def isSkipAddress (row : Row) : Bool :=
  match classifyAddrRow row with
  | AddrRowCase.skipAddress => true
  | _ => false

def isSkipCompany (row : Row) : Bool :=
  match classifyAddrRow row with
  | AddrRowCase.skipCompany => true
  | _ => false

/-- The composite merge key of an Address node. -/
def addrKey (p : AddressParam) : String × String × String :=
  (p.addressLine1, p.postTown, p.postCode)

/-- The attributes `SET` on an Address node. -/
def addrAttrsOf (p : AddressParam) : AddressAttrs :=
  { addressLine2 := p.addressLine2, county := p.county, country := p.country,
    careOf := p.careOf, poBox := p.poBox }

/-- The `MATCH company, MATCH address` guard of the HAS_ADDRESS
statement. -/
def addrRelGuard (st : GraphState) (p : AddressParam) : Bool :=
  (st.companies.val p.companyNumber).isSome && (st.addresses.val (addrKey p)).isSome

/-- One `UNWIND` element of the HAS_ADDRESS statement: `MATCH` company
and address (dropping the row when either is absent), then `MERGE` the
relationship. -/
def addrRelStep (st : GraphState) (p : AddressParam) : GraphState :=
  if addrRelGuard st p = true then
    { st with hasAddressRels := insertRel st.hasAddressRels (p.companyNumber, addrKey p) }
  else st

/-- One batch of the address loader: the batched address `MERGE`/`SET`
statement, then the batched relationship statement, then the counters
(processed, skipped-incomplete-address, skipped-null-company). -/
def addressBatchStep (acc : GraphState × Nat × Nat × Nat) (batch : List Row) :
    GraphState × Nat × Nat × Nat :=
  let batch_data := batch.filterMap addrParamOf
  let st1 :=
    { acc.1 with
      addresses :=
        tableFold acc.1.addresses (batch_data.map (fun p => (addrKey p, addrAttrsOf p))) }
  let st2 := batch_data.foldl addrRelStep st1
  (st2, acc.2.1 + batch_data.length,
    acc.2.2.1 + batch.countP isSkipAddress,
    acc.2.2.2 + batch.countP isSkipCompany)

/-- `create_address_nodes_and_relationships(query, total_rows)`: the
state plus (processed, skipped_address, skipped_company). -/
def create_address_nodes_and_relationships (st : GraphState) (rows : List Row) :
    GraphState × Nat × Nat × Nat :=
  (batch_generator rows BATCH_SIZE).foldl addressBatchStep (st, 0, 0, 0)

/-! ## `create_company_sic_relationships` -/

structure SicRelParam where
  companyNumber : String
  sicCode : String
  rank : Nat
deriving DecidableEq

/-- The four SIC slot columns with their ranks (`enumerate(..., start=1)`). -/
def sicSlots : List (Nat × String) :=
  [(1, "SICCode.SicText_1"), (2, "SICCode.SicText_2"),
   (3, "SICCode.SicText_3"), (4, "SICCode.SicText_4")]

/-- The per-row relationship parameters: one entry per slot whose parsed
code is truthy. -/
def rowSicParams (cn : String) (row : Row) : List SicRelParam :=
  sicSlots.filterMap (fun slot =>
    match (parse_sic_code (getS row slot.2)).1 with
    | some code => if code = "" then none else some ⟨cn, code, slot.1⟩
    | none => none)

/-- The `MATCH company, MATCH SIC code` guard of the relationship
statement. -/
def sicRelGuard (st : GraphState) (p : SicRelParam) : Bool :=
  (st.companies.val p.companyNumber).isSome && (st.sicNodes.val p.sicCode).isSome

/-- One `UNWIND` element of the CLASSIFIED_AS statement: both `MATCH`es
must succeed, then `MERGE` on the rank-carrying pattern. -/
def sicRelStep (st : GraphState) (p : SicRelParam) : GraphState :=
  if sicRelGuard st p = true then
    { st with sicRels := insertRel st.sicRels (p.companyNumber, p.sicCode, p.rank) }
  else st

/-- The cleaned CompanyNumber used by the relationship loaders' skip
check. -/
def rowCompanyNumber (row : Row) : Option String :=
  clean_string (getS row "CompanyNumber")

/-- One batch of the SIC relationship loader. -/
def sicBatchStep (acc : GraphState × Nat × Nat) (batch : List Row) :
    GraphState × Nat × Nat :=
  let adm := batch.filterMap (fun r => (rowCompanyNumber r).map (fun cn => (cn, r)))
  let batch_data := (adm.map (fun x => rowSicParams x.1 x.2)).flatten
  (batch_data.foldl sicRelStep acc.1, acc.2.1 + adm.length,
    acc.2.2 + (batch.length - adm.length))

/-- `create_company_sic_relationships(query, total_rows)`: the state plus
(processed, skipped). -/
def create_company_sic_relationships (st : GraphState) (rows : List Row) :
    GraphState × Nat × Nat :=
  (batch_generator rows BATCH_SIZE).foldl sicBatchStep (st, 0, 0)

/-! ## `create_previous_name_nodes_and_relationships` -/

structure PrevNameParam where
  companyNumber : String
  previousName : String
  changeDate : Option String
  sequence : Nat
deriving DecidableEq

/-- `range(1, 11)`: the ten previous-name slots. -/
def prevNameSlots : List Nat := List.range' 1 10

/-- The per-row previous-name parameters: one entry per populated name
slot. -/
def rowPrevNameParams (cn : String) (row : Row) : List PrevNameParam :=
  prevNameSlots.filterMap (fun seq =>
    match clean_string (getS row ("PreviousName_" ++ toString seq ++ ".CompanyName")) with
    | some prev_name =>
      some ⟨cn, prev_name,
        parse_date (getS row ("PreviousName_" ++ toString seq ++ ".CONDATE")), seq⟩
    | none => none)

def prevNameKeyOf (p : PrevNameParam) : String × String × Nat :=
  (p.companyNumber, p.previousName, p.sequence)

def prevNameRelOf (p : PrevNameParam) : String × String × Nat × Option String :=
  (p.companyNumber, p.previousName, p.sequence, p.changeDate)

/-- One `UNWIND` element of the previous-name statement: `MATCH` the
company (dropping the row when absent), `MERGE` the PreviousName node and
`SET` its change date, then `MERGE` the relationship whose pattern
carries the change date and the sequence. -/
def prevNameStep (st : GraphState) (p : PrevNameParam) : GraphState :=
  if (st.companies.val p.companyNumber).isSome = true then
    { st with
      prevNames := st.prevNames.merge (prevNameKeyOf p) p.changeDate,
      prevNameRels := insertRel st.prevNameRels (prevNameRelOf p) }
  else st

/-- One batch of the previous-name loader. -/
def prevNameBatchStep (acc : GraphState × Nat × Nat) (batch : List Row) :
    GraphState × Nat × Nat :=
  let adm := batch.filterMap (fun r => (rowCompanyNumber r).map (fun cn => (cn, r)))
  let batch_data := (adm.map (fun x => rowPrevNameParams x.1 x.2)).flatten
  (batch_data.foldl prevNameStep acc.1, acc.2.1 + adm.length,
    acc.2.2 + (batch.length - adm.length))

/-- `create_previous_name_nodes_and_relationships(query, total_rows)`:
the state plus (processed, skipped). -/
def create_previous_name_nodes_and_relationships (st : GraphState) (rows : List Row) :
    GraphState × Nat × Nat :=
  (batch_generator rows BATCH_SIZE).foldl prevNameBatchStep (st, 0, 0)

/-! ## The SIC-code extraction pre-pass (`extract_and_create_sic_codes`) -/

/-- One slot inspection of the first pass: record a truthy code not yet
in the dict, keeping the first-seen description. -/
def sicStep (m : List (String × Option String)) (txt : String) :
    List (String × Option String) :=
  match parse_sic_code txt with
  | (some code, desc) =>
    if code ≠ "" ∧ List.lookup code m = none then m ++ [(code, desc)] else m
  | (none, _) => m

/-- The four SIC slot texts of one row, in slot order. -/
def sicSlotTexts (row : Row) : List String :=
  [getS row "SICCode.SicText_1", getS row "SICCode.SicText_2",
   getS row "SICCode.SicText_3", getS row "SICCode.SicText_4"]

/-- The first pass of `extract_and_create_sic_codes`: scan every row's
four slot columns in file order, building the insertion-ordered
`sic_codes` dict. -/
def extract_and_create_sic_codes (rows : List Row) :
    List (String × Option String) :=
  rows.foldl (fun m r => (sicSlotTexts r).foldl sicStep m) []

/-! ## Generic facts about merge tables and relationship merges -/

/-- Left-biased choice on options (`a` if present, else `b`). -/
def oelse {α : Type} : Option α → Option α → Option α
  | some a, _ => some a
  | none, b => b

theorem oelse_none_right {α : Type} (a : Option α) : oelse a none = a := by
  cases a <;> rfl

theorem oelse_self_assoc {α : Type} (a b : Option α) :
    oelse a (oelse a b) = oelse a b := by
  cases a <;> rfl

/-- The last value a merge sequence writes for a key (later entries
win). -/
def lastValOf {K V : Type} [DecidableEq K] : List (K × V) → K → Option V
  | [], _ => none
  | p :: l, k =>
    match lastValOf l k with
    | some v => some v
    | none => if p.1 = k then some p.2 else none

theorem lastValOf_cons {K V : Type} [DecidableEq K] (p : K × V) (l : List (K × V)) (k : K) :
    lastValOf (p :: l) k = oelse (lastValOf l k) (if p.1 = k then some p.2 else none) := by
  rw [show lastValOf (p :: l) k =
      (match lastValOf l k with
       | some v => some v
       | none => if p.1 = k then some p.2 else none) from rfl]
  cases hv : lastValOf l k with
  | some v => rfl
  | none => rfl

theorem lastValOf_isSome_iff {K V : Type} [DecidableEq K] :
    ∀ (l : List (K × V)) (k : K),
      (lastValOf l k).isSome = true ↔ ∃ v, (k, v) ∈ l
  | [], k => by simp [lastValOf]
  | p :: l, k => by
    rw [lastValOf_cons]
    cases hv : lastValOf l k with
    | some v =>
      simp only [oelse, Option.isSome_some, true_iff]
      obtain ⟨w, hw⟩ := (lastValOf_isSome_iff l k).mp (by rw [hv]; rfl)
      exact ⟨w, by simp [hw]⟩
    | none =>
      simp only [oelse]
      constructor
      · intro h
        by_cases hk : p.1 = k
        · subst hk
          exact ⟨p.2, by simp⟩
        · rw [if_neg hk] at h
          simp at h
      · rintro ⟨v, hv2⟩
        rcases List.mem_cons.mp hv2 with h | h
        · rw [if_pos (by rw [← h])]
          rfl
        · obtain hs := (lastValOf_isSome_iff l k).mpr ⟨v, h⟩
          rw [hv] at hs
          simp at hs

theorem nodeTableExt {K V : Type} {t1 t2 : NodeTable K V}
    (hk : t1.keys = t2.keys) (hv : ∀ k, t1.val k = t2.val k) : t1 = t2 := by
  cases t1
  cases t2
  simp only [NodeTable.mk.injEq]
  exact ⟨hk, funext hv⟩

theorem merge_val {K V : Type} [DecidableEq K] (t : NodeTable K V) (k : K) (v : V) (q : K) :
    (t.merge k v).val q = if q = k then some v else t.val q := rfl

theorem merge_val_isSome_mono {K V : Type} [DecidableEq K] {t : NodeTable K V} {q : K}
    (h : (t.val q).isSome = true) (k : K) (v : V) :
    ((t.merge k v).val q).isSome = true := by
  rw [merge_val]
  split
  · rfl
  · exact h

theorem tableFold_append {K V : Type} [DecidableEq K] (t : NodeTable K V)
    (l1 l2 : List (K × V)) :
    tableFold t (l1 ++ l2) = tableFold (tableFold t l1) l2 :=
  List.foldl_append ..

theorem tableFold_val {K V : Type} [DecidableEq K] :
    ∀ (l : List (K × V)) (t : NodeTable K V) (k : K),
      (tableFold t l).val k = oelse (lastValOf l k) (t.val k)
  | [], t, k => by simp [tableFold, lastValOf, oelse]
  | p :: l, t, k => by
    rw [show tableFold t (p :: l) = tableFold (t.merge p.1 p.2) l from rfl]
    rw [tableFold_val l (t.merge p.1 p.2) k, lastValOf_cons, merge_val]
    cases lastValOf l k with
    | some v => rfl
    | none =>
      by_cases hk : p.1 = k
      · rw [if_pos hk, if_pos (by rw [hk])]
        rfl
      · rw [if_neg hk, if_neg (by intro hc; exact hk hc.symm)]
        rfl

theorem tableFold_val_isSome_of_mem {K V : Type} [DecidableEq K]
    {l : List (K × V)} {p : K × V} (hp : p ∈ l) (t : NodeTable K V) :
    ((tableFold t l).val p.1).isSome = true := by
  rw [tableFold_val]
  have hs : (lastValOf l p.1).isSome = true :=
    (lastValOf_isSome_iff l p.1).mpr ⟨p.2, by simpa using hp⟩
  cases hv : lastValOf l p.1 with
  | some v => rfl
  | none => rw [hv] at hs; simp at hs

theorem tableFold_keys_of_present {K V : Type} [DecidableEq K] :
    ∀ (l : List (K × V)) (t : NodeTable K V),
      (∀ p ∈ l, (t.val p.1).isSome = true) → (tableFold t l).keys = t.keys
  | [], t, _ => rfl
  | p :: l, t, h => by
    rw [show tableFold t (p :: l) = tableFold (t.merge p.1 p.2) l from rfl]
    rw [tableFold_keys_of_present l (t.merge p.1 p.2)
      (fun q hq => merge_val_isSome_mono (h q (by simp [hq])) p.1 p.2)]
    unfold NodeTable.merge
    rw [if_pos (h p (by simp))]

/-- Re-merging the same sequence into a table is a no-op. -/
theorem tableFold_idem {K V : Type} [DecidableEq K] (t : NodeTable K V)
    (l : List (K × V)) :
    tableFold (tableFold t l) l = tableFold t l := by
  refine nodeTableExt ?_ ?_
  · exact tableFold_keys_of_present l (tableFold t l)
      (fun p hp => tableFold_val_isSome_of_mem hp t)
  · intro k
    rw [tableFold_val, tableFold_val, oelse_self_assoc]

theorem insFold_append {α : Type} [DecidableEq α] (s : List α) (l1 l2 : List α) :
    insFold s (l1 ++ l2) = insFold (insFold s l1) l2 :=
  List.foldl_append ..

theorem mem_insertRel {α : Type} [DecidableEq α] {s : List α} {a : α}
    (h : a ∈ s) (e : α) : a ∈ insertRel s e := by
  unfold insertRel
  split
  · exact h
  · exact List.mem_append_left _ h

theorem self_mem_insertRel {α : Type} [DecidableEq α] (s : List α) (e : α) :
    e ∈ insertRel s e := by
  unfold insertRel
  split
  · assumption
  · simp

theorem mem_insFold_of_mem_init {α : Type} [DecidableEq α] :
    ∀ (l : List α) (s : List α) (a : α), a ∈ s → a ∈ insFold s l
  | [], _, _, h => h
  | e :: l, s, a, h =>
    mem_insFold_of_mem_init l (insertRel s e) a (mem_insertRel h e)

theorem mem_insFold_of_mem {α : Type} [DecidableEq α] :
    ∀ (l : List α) (s : List α) (a : α), a ∈ l → a ∈ insFold s l
  | e :: l, s, a, h => by
    rcases List.mem_cons.mp h with rfl | h2
    · exact mem_insFold_of_mem_init l (insertRel s a) a (self_mem_insertRel s a)
    · exact mem_insFold_of_mem l _ a h2

theorem insFold_eq_self {α : Type} [DecidableEq α] :
    ∀ (l : List α) (s : List α), (∀ a ∈ l, a ∈ s) → insFold s l = s
  | [], _, _ => rfl
  | e :: l, s, h => by
    have he : e ∈ s := h e (by simp)
    show List.foldl insertRel s (e :: l) = s
    rw [List.foldl_cons, show insertRel s e = s from by unfold insertRel; rw [if_pos he]]
    exact insFold_eq_self l s (fun a ha => h a (by simp [ha]))

/-- Re-merging the same relationship sequence is a no-op. -/
theorem insFold_idem {α : Type} [DecidableEq α] (s : List α) (l : List α) :
    insFold (insFold s l) l = insFold s l :=
  insFold_eq_self l (insFold s l) (fun a ha => mem_insFold_of_mem l s a ha)

theorem length_filterMap_eq_countP {α β : Type} (f : α → Option β) :
    ∀ l : List α, (l.filterMap f).length = l.countP (fun a => (f a).isSome)
  | [] => rfl
  | x :: l => by
    rw [List.filterMap_cons, List.countP_cons]
    cases hf : f x with
    | none => simp [hf, length_filterMap_eq_countP f l]
    | some b => simp [hf, length_filterMap_eq_countP f l]

theorem lookup_append {K V : Type} [DecidableEq K] :
    ∀ (l1 l2 : List (K × V)) (k : K),
      List.lookup k (l1 ++ l2) = oelse (List.lookup k l1) (List.lookup k l2)
  | [], l2, k => rfl
  | p :: l1, l2, k => by
    rw [List.cons_append, List.lookup_cons, List.lookup_cons]
    cases hk : k == p.1 with
    | true => rfl
    | false => exact lookup_append l1 l2 k

theorem lookup_eq_none_iff {K V : Type} [DecidableEq K] :
    ∀ (l : List (K × V)) (k : K),
      List.lookup k l = none ↔ k ∉ l.map Prod.fst
  | [], k => by simp
  | p :: l, k => by
    rw [List.lookup_cons]
    cases hk : k == p.1 with
    | true =>
      simp only [reduceCtorEq, false_iff]
      have : k = p.1 := by simpa using hk
      simp [this]
    | false =>
      rw [lookup_eq_none_iff l k]
      have : ¬k = p.1 := by simpa using hk
      simp [this]

/-! ## Characterization of the loaders over the full row stream -/

theorem countP_add_not {α : Type} (p : α → Bool) :
    ∀ l : List α, l.countP p + l.countP (fun a => !(p a)) = l.length
  | [] => rfl
  | x :: l => by
    rw [List.countP_cons, List.countP_cons]
    have := countP_add_not p l
    cases hp : p x <;> simp [hp] <;> omega

theorem graphStateExt {s1 s2 : GraphState}
    (h1 : s1.companies = s2.companies) (h2 : s1.addresses = s2.addresses)
    (h3 : s1.sicNodes = s2.sicNodes) (h4 : s1.hasAddressRels = s2.hasAddressRels)
    (h5 : s1.sicRels = s2.sicRels) (h6 : s1.prevNames = s2.prevNames)
    (h7 : s1.prevNameRels = s2.prevNameRels) : s1 = s2 := by
  cases s1
  cases s2
  simp only [GraphState.mk.injEq]
  exact ⟨h1, h2, h3, h4, h5, h6, h7⟩

/-- The keyed merge sequence the company loader sends to the store. -/
def companyEntries (rows : List Row) : List (String × CompanyAttrs) :=
  (rows.filterMap toCompanyParam).map (fun p => (p.companyNumber, companyAttrsOf p))

theorem foldl_companyMerge :
    ∀ (ps : List CompanyParam) (st : GraphState),
      ps.foldl (fun st p =>
          { st with companies := st.companies.merge p.companyNumber (companyAttrsOf p) }) st =
        { st with
          companies :=
            tableFold st.companies (ps.map (fun p => (p.companyNumber, companyAttrsOf p))) }
  | [], st => rfl
  | p :: ps, st => by
    rw [List.foldl_cons, foldl_companyMerge ps]
    rfl

theorem companyEntries_append (l1 l2 : List Row) :
    companyEntries (l1 ++ l2) = companyEntries l1 ++ companyEntries l2 := by
  unfold companyEntries
  rw [List.filterMap_append, List.map_append]

theorem companyBatchStep_eq (acc : GraphState × Nat × Nat) (batch : List Row) :
    companyBatchStep acc batch =
      ({ acc.1 with companies := tableFold acc.1.companies (companyEntries batch) },
        acc.2.1 + batch.countP (fun r => (toCompanyParam r).isSome),
        acc.2.2 + batch.countP (fun r => !(toCompanyParam r).isSome)) := by
  unfold companyBatchStep
  dsimp only
  rw [foldl_companyMerge]
  rw [length_filterMap_eq_countP toCompanyParam batch]
  have htot := countP_add_not (fun r => (toCompanyParam r).isSome) batch
  have hsub : batch.length - batch.countP (fun r => (toCompanyParam r).isSome) =
      batch.countP (fun r => !((toCompanyParam r).isSome)) := by omega
  rw [hsub]
  rfl

theorem foldl_companyBatchStep :
    ∀ (bs : List (List Row)) (st : GraphState) (n m : Nat),
      bs.foldl companyBatchStep (st, n, m) =
        ({ st with companies := tableFold st.companies (companyEntries bs.flatten) },
          n + bs.flatten.countP (fun r => (toCompanyParam r).isSome),
          m + bs.flatten.countP (fun r => !(toCompanyParam r).isSome))
  | [], st, n, m => by
    simp [companyEntries, tableFold]
  | b :: bs, st, n, m => by
    rw [List.foldl_cons, companyBatchStep_eq, foldl_companyBatchStep bs]
    rw [List.flatten_cons, companyEntries_append, tableFold_append, List.countP_append,
      List.countP_append]
    refine Prod.ext rfl (Prod.ext ?_ ?_) <;> simp <;> omega

/-- `create_company_nodes` over the whole stream: one merge per
admissible row in file order, other store components untouched, plus the
processed/skipped counts. -/
theorem create_company_nodes_eq (st : GraphState) (rows : List Row) :
    create_company_nodes st rows =
      ({ st with companies := tableFold st.companies (companyEntries rows) },
        rows.countP (fun r => (toCompanyParam r).isSome),
        rows.countP (fun r => !(toCompanyParam r).isSome)) := by
  unfold create_company_nodes
  rw [foldl_companyBatchStep, batch_generator_join rows BATCH_SIZE]
  simp

/-! ### The SIC relationship loader -/

def sicTripleOf (p : SicRelParam) : String × String × Nat :=
  (p.companyNumber, p.sicCode, p.rank)

/-- The relationship parameters the SIC loader derives from a row
sequence. -/
def sicParamsOf (rows : List Row) : List SicRelParam :=
  ((rows.filterMap (fun r => (rowCompanyNumber r).map (fun cn => (cn, r)))).map
    (fun x => rowSicParams x.1 x.2)).flatten

theorem sicParamsOf_append (l1 l2 : List Row) :
    sicParamsOf (l1 ++ l2) = sicParamsOf l1 ++ sicParamsOf l2 := by
  unfold sicParamsOf
  rw [List.filterMap_append, List.map_append, List.flatten_append]

theorem insFold_cons {α : Type} [DecidableEq α] (s : List α) (x : α) (xs : List α) :
    insFold s (x :: xs) = insFold (insertRel s x) xs := rfl

theorem sicRelGuard_update_state (st : GraphState) (r : List (String × String × Nat)) :
    (fun p => sicRelGuard { st with sicRels := r } p) = fun p => sicRelGuard st p := rfl

theorem sicRelStep_true {st : GraphState} {p : SicRelParam}
    (hg : sicRelGuard st p = true) :
    sicRelStep st p = { st with sicRels := insertRel st.sicRels (sicTripleOf p) } := by
  unfold sicRelStep
  rw [if_pos hg]
  rfl

theorem sicRelStep_false {st : GraphState} {p : SicRelParam}
    (hg : ¬sicRelGuard st p = true) : sicRelStep st p = st := by
  unfold sicRelStep
  rw [if_neg hg]

theorem foldl_sicRelStep :
    ∀ (l : List SicRelParam) (st : GraphState),
      l.foldl sicRelStep st =
        { st with
          sicRels := insFold st.sicRels
            ((l.filter (fun p => sicRelGuard st p)).map sicTripleOf) }
  | [], st => rfl
  | p :: l, st => by
    rw [List.foldl_cons, foldl_sicRelStep l]
    rw [List.filter_congr (fun q _ => (by
      unfold sicRelStep
      split <;> rfl : sicRelGuard (sicRelStep st p) q = sicRelGuard st q))]
    by_cases hg : sicRelGuard st p = true
    · rw [List.filter_cons, if_pos hg, List.map_cons, insFold_cons, sicRelStep_true hg]
    · rw [List.filter_cons, if_neg hg, sicRelStep_false hg]

theorem sicBatchStep_eq (acc : GraphState × Nat × Nat) (batch : List Row) :
    sicBatchStep acc batch =
      ({ acc.1 with
          sicRels := insFold acc.1.sicRels
            (((sicParamsOf batch).filter (fun p => sicRelGuard acc.1 p)).map sicTripleOf) },
        acc.2.1 + batch.countP (fun r => (rowCompanyNumber r).isSome),
        acc.2.2 + batch.countP (fun r => !(rowCompanyNumber r).isSome)) := by
  unfold sicBatchStep
  dsimp only
  rw [foldl_sicRelStep]
  have hlen : (batch.filterMap (fun r => (rowCompanyNumber r).map (fun cn => (cn, r)))).length =
      batch.countP (fun r => (rowCompanyNumber r).isSome) := by
    rw [length_filterMap_eq_countP]
    exact List.countP_congr (fun r _ => by cases rowCompanyNumber r <;> simp)
  have htot := countP_add_not (fun r => (rowCompanyNumber r).isSome) batch
  have hsub : batch.length -
      (batch.filterMap (fun r => (rowCompanyNumber r).map (fun cn => (cn, r)))).length =
      batch.countP (fun r => !((rowCompanyNumber r).isSome)) := by
    rw [hlen]; omega
  rw [hsub, hlen]
  rfl

theorem foldl_sicBatchStep :
    ∀ (bs : List (List Row)) (st : GraphState) (n m : Nat),
      bs.foldl sicBatchStep (st, n, m) =
        ({ st with
            sicRels := insFold st.sicRels
              (((sicParamsOf bs.flatten).filter (fun p => sicRelGuard st p)).map sicTripleOf) },
          n + bs.flatten.countP (fun r => (rowCompanyNumber r).isSome),
          m + bs.flatten.countP (fun r => !(rowCompanyNumber r).isSome))
  | [], st, n, m => by
    simp [sicParamsOf, insFold]
  | b :: bs, st, n, m => by
    rw [List.foldl_cons, sicBatchStep_eq, foldl_sicBatchStep bs]
    rw [sicRelGuard_update_state]
    rw [List.flatten_cons, sicParamsOf_append, List.filter_append, List.map_append,
      insFold_append, List.countP_append, List.countP_append]
    refine Prod.ext rfl (Prod.ext ?_ ?_) <;> simp <;> omega

/-- `create_company_sic_relationships` over the whole stream. -/
theorem create_company_sic_relationships_eq (st : GraphState) (rows : List Row) :
    create_company_sic_relationships st rows =
      ({ st with
          sicRels := insFold st.sicRels
            (((sicParamsOf rows).filter (fun p => sicRelGuard st p)).map sicTripleOf) },
        rows.countP (fun r => (rowCompanyNumber r).isSome),
        rows.countP (fun r => !(rowCompanyNumber r).isSome)) := by
  unfold create_company_sic_relationships
  rw [foldl_sicBatchStep, batch_generator_join rows BATCH_SIZE]
  simp

/-! ### The address loader -/

/-- The keyed Address merges of the address loader. -/
def addrEntriesOf (rows : List Row) : List ((String × String × String) × AddressAttrs) :=
  (rows.filterMap addrParamOf).map (fun p => (addrKey p, addrAttrsOf p))

/-- The HAS_ADDRESS relationships created for a row sequence, given the
Company table in force (the address `MATCH` always succeeds because the
address batch is merged first). -/
def addrRelPairsOf (c : NodeTable String CompanyAttrs) (rows : List Row) :
    List (String × (String × String × String)) :=
  ((rows.filterMap addrParamOf).filter (fun p => (c.val p.companyNumber).isSome)).map
    (fun p => (p.companyNumber, addrKey p))

theorem addrEntriesOf_append (l1 l2 : List Row) :
    addrEntriesOf (l1 ++ l2) = addrEntriesOf l1 ++ addrEntriesOf l2 := by
  unfold addrEntriesOf
  rw [List.filterMap_append, List.map_append]

theorem addrRelPairsOf_append (c : NodeTable String CompanyAttrs) (l1 l2 : List Row) :
    addrRelPairsOf c (l1 ++ l2) = addrRelPairsOf c l1 ++ addrRelPairsOf c l2 := by
  unfold addrRelPairsOf
  rw [List.filterMap_append, List.filter_append, List.map_append]

def addrPairOf (p : AddressParam) : String × (String × String × String) :=
  (p.companyNumber, addrKey p)

theorem addrRelStep_true {st : GraphState} {p : AddressParam}
    (hg : addrRelGuard st p = true) :
    addrRelStep st p =
      { st with hasAddressRels := insertRel st.hasAddressRels (addrPairOf p) } := by
  unfold addrRelStep
  rw [if_pos hg]
  rfl

theorem addrRelStep_false {st : GraphState} {p : AddressParam}
    (hg : ¬addrRelGuard st p = true) : addrRelStep st p = st := by
  unfold addrRelStep
  rw [if_neg hg]

theorem foldl_addrRelStep :
    ∀ (l : List AddressParam) (st : GraphState),
      l.foldl addrRelStep st =
        { st with
          hasAddressRels := insFold st.hasAddressRels
            ((l.filter (fun p => addrRelGuard st p)).map addrPairOf) }
  | [], st => rfl
  | p :: l, st => by
    rw [List.foldl_cons, foldl_addrRelStep l]
    rw [List.filter_congr (fun q _ => (by
      unfold addrRelStep
      split <;> rfl : addrRelGuard (addrRelStep st p) q = addrRelGuard st q))]
    by_cases hg : addrRelGuard st p = true
    · rw [List.filter_cons, if_pos hg, List.map_cons, insFold_cons, addrRelStep_true hg]
    · rw [List.filter_cons, if_neg hg, addrRelStep_false hg]

theorem addressBatchStep_eq (acc : GraphState × Nat × Nat × Nat) (batch : List Row) :
    addressBatchStep acc batch =
      ({ acc.1 with
          addresses := tableFold acc.1.addresses (addrEntriesOf batch),
          hasAddressRels :=
            insFold acc.1.hasAddressRels (addrRelPairsOf acc.1.companies batch) },
        acc.2.1 + batch.countP (fun r => (addrParamOf r).isSome),
        acc.2.2.1 + batch.countP isSkipAddress,
        acc.2.2.2 + batch.countP isSkipCompany) := by
  unfold addressBatchStep
  dsimp only
  rw [foldl_addrRelStep]
  rw [List.filter_congr (fun p hp => (by
    unfold addrRelGuard
    rw [show ((({ acc.1 with
          addresses := tableFold acc.1.addresses
            ((batch.filterMap addrParamOf).map (fun p => (addrKey p, addrAttrsOf p))) } :
        GraphState).addresses.val (addrKey p)).isSome) = true from
      tableFold_val_isSome_of_mem
        (List.mem_map_of_mem (fun p => (addrKey p, addrAttrsOf p)) hp) acc.1.addresses]
    rw [Bool.and_true] :
    addrRelGuard ({ acc.1 with
        addresses := tableFold acc.1.addresses
          ((batch.filterMap addrParamOf).map (fun p => (addrKey p, addrAttrsOf p))) }) p =
      (acc.1.companies.val p.companyNumber).isSome))]
  rw [length_filterMap_eq_countP addrParamOf batch]
  rfl

theorem foldl_addressBatchStep :
    ∀ (bs : List (List Row)) (st : GraphState) (n m k : Nat),
      bs.foldl addressBatchStep (st, n, m, k) =
        ({ st with
            addresses := tableFold st.addresses (addrEntriesOf bs.flatten),
            hasAddressRels :=
              insFold st.hasAddressRels (addrRelPairsOf st.companies bs.flatten) },
          n + bs.flatten.countP (fun r => (addrParamOf r).isSome),
          m + bs.flatten.countP isSkipAddress,
          k + bs.flatten.countP isSkipCompany)
  | [], st, n, m, k => by
    simp [addrEntriesOf, addrRelPairsOf, tableFold, insFold]
  | b :: bs, st, n, m, k => by
    rw [List.foldl_cons, addressBatchStep_eq, foldl_addressBatchStep bs]
    rw [show ({ st with
          addresses := tableFold st.addresses (addrEntriesOf b),
          hasAddressRels := insFold st.hasAddressRels (addrRelPairsOf st.companies b) } :
        GraphState).addresses = tableFold st.addresses (addrEntriesOf b) from rfl]
    rw [show ({ st with
          addresses := tableFold st.addresses (addrEntriesOf b),
          hasAddressRels := insFold st.hasAddressRels (addrRelPairsOf st.companies b) } :
        GraphState).hasAddressRels =
        insFold st.hasAddressRels (addrRelPairsOf st.companies b) from rfl]
    rw [show ({ st with
          addresses := tableFold st.addresses (addrEntriesOf b),
          hasAddressRels := insFold st.hasAddressRels (addrRelPairsOf st.companies b) } :
        GraphState).companies = st.companies from rfl]
    rw [List.flatten_cons, addrEntriesOf_append, addrRelPairsOf_append, tableFold_append,
      insFold_append, List.countP_append, List.countP_append, List.countP_append]
    refine Prod.ext rfl (Prod.ext ?_ (Prod.ext ?_ ?_)) <;> simp <;> omega

/-- `create_address_nodes_and_relationships` over the whole stream. -/
theorem create_address_nodes_and_relationships_eq (st : GraphState) (rows : List Row) :
    create_address_nodes_and_relationships st rows =
      ({ st with
          addresses := tableFold st.addresses (addrEntriesOf rows),
          hasAddressRels := insFold st.hasAddressRels (addrRelPairsOf st.companies rows) },
        rows.countP (fun r => (addrParamOf r).isSome),
        rows.countP isSkipAddress,
        rows.countP isSkipCompany) := by
  unfold create_address_nodes_and_relationships
  rw [foldl_addressBatchStep, batch_generator_join rows BATCH_SIZE]
  simp

/-! ### The previous-name loader -/

/-- The per-row previous-name parameters of a row sequence. -/
def prevParamsOf (rows : List Row) : List PrevNameParam :=
  ((rows.filterMap (fun r => (rowCompanyNumber r).map (fun cn => (cn, r)))).map
    (fun x => rowPrevNameParams x.1 x.2)).flatten

theorem prevParamsOf_append (l1 l2 : List Row) :
    prevParamsOf (l1 ++ l2) = prevParamsOf l1 ++ prevParamsOf l2 := by
  unfold prevParamsOf
  rw [List.filterMap_append, List.map_append, List.flatten_append]

theorem tableFold_cons {K V : Type} [DecidableEq K] (t : NodeTable K V)
    (x : K × V) (xs : List (K × V)) :
    tableFold t (x :: xs) = tableFold (t.merge x.1 x.2) xs := rfl

theorem prevNameStep_true {st : GraphState} {p : PrevNameParam}
    (hg : (st.companies.val p.companyNumber).isSome = true) :
    prevNameStep st p =
      { st with
        prevNames := st.prevNames.merge (prevNameKeyOf p, p.changeDate).1
          (prevNameKeyOf p, p.changeDate).2,
        prevNameRels := insertRel st.prevNameRels (prevNameRelOf p) } := by
  unfold prevNameStep
  rw [if_pos hg]

theorem prevNameStep_false {st : GraphState} {p : PrevNameParam}
    (hg : ¬(st.companies.val p.companyNumber).isSome = true) : prevNameStep st p = st := by
  unfold prevNameStep
  rw [if_neg hg]

theorem foldl_prevNameStep :
    ∀ (l : List PrevNameParam) (st : GraphState),
      l.foldl prevNameStep st =
        { st with
          prevNames := tableFold st.prevNames
            ((l.filter (fun p => (st.companies.val p.companyNumber).isSome)).map
              (fun p => (prevNameKeyOf p, p.changeDate))),
          prevNameRels := insFold st.prevNameRels
            ((l.filter (fun p => (st.companies.val p.companyNumber).isSome)).map
              prevNameRelOf) }
  | [], st => rfl
  | p :: l, st => by
    rw [List.foldl_cons, foldl_prevNameStep l]
    rw [List.filter_congr (fun q _ => (by
      unfold prevNameStep
      split <;> rfl :
      ((prevNameStep st p).companies.val q.companyNumber).isSome =
        (st.companies.val q.companyNumber).isSome))]
    by_cases hg : (st.companies.val p.companyNumber).isSome = true
    · rw [List.filter_cons, if_pos hg, List.map_cons, List.map_cons, insFold_cons,
        tableFold_cons, prevNameStep_true hg]
    · rw [List.filter_cons, if_neg hg, prevNameStep_false hg]

theorem prevNameBatchStep_eq (acc : GraphState × Nat × Nat) (batch : List Row) :
    prevNameBatchStep acc batch =
      ({ acc.1 with
          prevNames := tableFold acc.1.prevNames
            (((prevParamsOf batch).filter
              (fun p => (acc.1.companies.val p.companyNumber).isSome)).map
              (fun p => (prevNameKeyOf p, p.changeDate))),
          prevNameRels := insFold acc.1.prevNameRels
            (((prevParamsOf batch).filter
              (fun p => (acc.1.companies.val p.companyNumber).isSome)).map
              prevNameRelOf) },
        acc.2.1 + batch.countP (fun r => (rowCompanyNumber r).isSome),
        acc.2.2 + batch.countP (fun r => !(rowCompanyNumber r).isSome)) := by
  unfold prevNameBatchStep
  dsimp only
  rw [foldl_prevNameStep]
  have hlen : (batch.filterMap (fun r => (rowCompanyNumber r).map (fun cn => (cn, r)))).length =
      batch.countP (fun r => (rowCompanyNumber r).isSome) := by
    rw [length_filterMap_eq_countP]
    exact List.countP_congr (fun r _ => by cases rowCompanyNumber r <;> simp)
  have htot := countP_add_not (fun r => (rowCompanyNumber r).isSome) batch
  have hsub : batch.length -
      (batch.filterMap (fun r => (rowCompanyNumber r).map (fun cn => (cn, r)))).length =
      batch.countP (fun r => !((rowCompanyNumber r).isSome)) := by
    rw [hlen]; omega
  rw [hsub, hlen]
  rfl

theorem prevNameBatchStep_append (acc : GraphState × Nat × Nat) (b1 b2 : List Row) :
    prevNameBatchStep (prevNameBatchStep acc b1) b2 = prevNameBatchStep acc (b1 ++ b2) := by
  unfold prevNameBatchStep
  dsimp only
  rw [List.filterMap_append, List.map_append, List.flatten_append, List.foldl_append]
  have h1 := List.length_filterMap_le (fun r => (rowCompanyNumber r).map (fun cn => (cn, r))) b1
  have h2 := List.length_filterMap_le (fun r => (rowCompanyNumber r).map (fun cn => (cn, r))) b2
  refine Prod.ext rfl (Prod.ext ?_ ?_) <;> simp <;> omega

theorem foldl_prevNameBatchStep :
    ∀ (bs : List (List Row)) (acc : GraphState × Nat × Nat),
      bs.foldl prevNameBatchStep acc = prevNameBatchStep acc bs.flatten
  | [], acc => by
    unfold prevNameBatchStep
    dsimp only
    simp
  | b :: bs, acc => by
    rw [List.foldl_cons, foldl_prevNameBatchStep bs, List.flatten_cons,
      ← prevNameBatchStep_append]

/-- `create_previous_name_nodes_and_relationships` over the whole
stream. -/
theorem create_previous_name_nodes_and_relationships_eq (st : GraphState) (rows : List Row) :
    create_previous_name_nodes_and_relationships st rows =
      ({ st with
          prevNames := tableFold st.prevNames
            (((prevParamsOf rows).filter
              (fun p => (st.companies.val p.companyNumber).isSome)).map
              (fun p => (prevNameKeyOf p, p.changeDate))),
          prevNameRels := insFold st.prevNameRels
            (((prevParamsOf rows).filter
              (fun p => (st.companies.val p.companyNumber).isSome)).map
              prevNameRelOf) },
        rows.countP (fun r => (rowCompanyNumber r).isSome),
        rows.countP (fun r => !(rowCompanyNumber r).isSome)) := by
  unfold create_previous_name_nodes_and_relationships
  rw [foldl_prevNameBatchStep, batch_generator_join rows BATCH_SIZE, prevNameBatchStep_eq]
  simp

/-! ## Idempotence of the loaders (C4) -/

theorem prevGuard_update (st : GraphState)
    (a : NodeTable (String × String × Nat) (Option String))
    (r : List (String × String × Nat × Option String)) :
    (fun p : PrevNameParam =>
      ((({ st with prevNames := a, prevNameRels := r } : GraphState).companies.val
        p.companyNumber).isSome)) =
    (fun p : PrevNameParam => ((st.companies.val p.companyNumber).isSome)) := rfl

theorem addrGuard_update (st : GraphState)
    (a : NodeTable (String × String × String) AddressAttrs)
    (r : List (String × (String × String × String))) :
    ({ st with addresses := a, hasAddressRels := r } : GraphState).companies =
      st.companies := rfl

theorem idem_company (st : GraphState) (rows : List Row) :
    (create_company_nodes (create_company_nodes st rows).1 rows).1 =
      (create_company_nodes st rows).1 := by
  rw [create_company_nodes_eq st rows]
  dsimp only
  rw [create_company_nodes_eq]
  dsimp only
  exact graphStateExt (tableFold_idem st.companies (companyEntries rows))
    rfl rfl rfl rfl rfl rfl

theorem idem_address (st : GraphState) (rows : List Row) :
    (create_address_nodes_and_relationships
        (create_address_nodes_and_relationships st rows).1 rows).1 =
      (create_address_nodes_and_relationships st rows).1 := by
  rw [create_address_nodes_and_relationships_eq st rows]
  dsimp only
  rw [create_address_nodes_and_relationships_eq]
  dsimp only
  rw [addrGuard_update]
  refine graphStateExt rfl ?_ rfl ?_ rfl rfl rfl
  · exact tableFold_idem st.addresses (addrEntriesOf rows)
  · exact insFold_eq_self _ _ (fun a ha => mem_insFold_of_mem _ _ a ha)

theorem idem_sic (st : GraphState) (rows : List Row) :
    (create_company_sic_relationships
        (create_company_sic_relationships st rows).1 rows).1 =
      (create_company_sic_relationships st rows).1 := by
  rw [create_company_sic_relationships_eq st rows]
  dsimp only
  rw [create_company_sic_relationships_eq]
  dsimp only
  rw [sicRelGuard_update_state]
  refine graphStateExt rfl rfl rfl rfl ?_ rfl rfl
  exact insFold_eq_self _ _ (fun a ha => mem_insFold_of_mem _ _ a ha)

theorem idem_prev (st : GraphState) (rows : List Row) :
    (create_previous_name_nodes_and_relationships
        (create_previous_name_nodes_and_relationships st rows).1 rows).1 =
      (create_previous_name_nodes_and_relationships st rows).1 := by
  rw [create_previous_name_nodes_and_relationships_eq st rows]
  dsimp only
  rw [create_previous_name_nodes_and_relationships_eq]
  dsimp only
  rw [prevGuard_update]
  refine graphStateExt rfl rfl rfl rfl rfl ?_ ?_
  · exact tableFold_idem st.prevNames _
  · exact insFold_eq_self _ _ (fun a ha => mem_insFold_of_mem _ _ a ha)

/-- C4: every loader is idempotent over the store state: re-running the
Company loader, the Address loader (nodes and HAS_ADDRESS relationships),
the CLASSIFIED_AS loader (whose pattern carries the rank), and the
PreviousName loader (whose patterns carry sequence and change date) on
the same input leaves the store state — node tables and relationship
sets — exactly as after one run; in particular the Company node count is
unchanged. -/
theorem loaders_idempotent (st : GraphState) (rows : List Row) :
    (create_company_nodes (create_company_nodes st rows).1 rows).1 =
      (create_company_nodes st rows).1 ∧
    (create_company_nodes (create_company_nodes st rows).1 rows).1.companies.count =
      (create_company_nodes st rows).1.companies.count ∧
    (create_address_nodes_and_relationships
        (create_address_nodes_and_relationships st rows).1 rows).1 =
      (create_address_nodes_and_relationships st rows).1 ∧
    (create_company_sic_relationships
        (create_company_sic_relationships st rows).1 rows).1 =
      (create_company_sic_relationships st rows).1 ∧
    (create_previous_name_nodes_and_relationships
        (create_previous_name_nodes_and_relationships st rows).1 rows).1 =
      (create_previous_name_nodes_and_relationships st rows).1 :=
  ⟨idem_company st rows,
    congrArg (fun g => g.companies.count) (idem_company st rows),
    idem_address st rows, idem_sic st rows, idem_prev st rows⟩

/-! ## Address-loader admissibility (C3) -/

/-- The empty graph store. -/
def emptyGraph : GraphState :=
  { companies := NodeTable.empty, addresses := NodeTable.empty,
    sicNodes := NodeTable.empty, hasAddressRels := [], sicRels := [],
    prevNames := NodeTable.empty, prevNameRels := [] }

theorem oelse_isSome {α : Type} (a b : Option α) :
    (oelse a b).isSome = true ↔ a.isSome = true ∨ b.isSome = true := by
  cases a <;> simp [oelse]

/-- A row is admissible for the address loader exactly when its
CompanyNumber and all three composite-key address fields clean to
something. -/
theorem addrParamOf_isSome_iff (r : Row) :
    (addrParamOf r).isSome = true ↔
      ((clean_string (getS r "CompanyNumber")).isSome = true ∧
        (clean_string (getS r "RegAddress.AddressLine1")).isSome = true ∧
        (clean_string (getS r "RegAddress.PostTown")).isSome = true ∧
        (clean_string (getS r "RegAddress.PostCode")).isSome = true) := by
  unfold addrParamOf classifyAddrRow
  rcases h1 : clean_string (getS r "CompanyNumber") with _ | cn <;>
    rcases h2 : clean_string (getS r "RegAddress.AddressLine1") with _ | l1 <;>
    rcases h3 : clean_string (getS r "RegAddress.PostTown") with _ | pt <;>
    rcases h4 : clean_string (getS r "RegAddress.PostCode") with _ | pc <;>
    simp [h1, h2, h3, h4]

/-- C3 (amended): the address loader counts as processed exactly the rows
whose CompanyNumber and three composite address-key fields are all
non-absent after normalization; rows with a present CompanyNumber but an
incomplete address key are counted in the incomplete-address skip
counter, rows with an absent CompanyNumber in the null-company skip
counter (whatever their address fields); an Address node key is present
after the run exactly when it was present before or some admissible row
carries it; and the loader is total — no row raises. -/
theorem address_loader_spec (st : GraphState) (rows : List Row) :
    (create_address_nodes_and_relationships st rows).2.1 =
      rows.countP (fun r => (addrParamOf r).isSome) ∧
    (create_address_nodes_and_relationships st rows).2.2.1 =
      rows.countP isSkipAddress ∧
    (create_address_nodes_and_relationships st rows).2.2.2 =
      rows.countP isSkipCompany ∧
    (∀ r : Row, (addrParamOf r).isSome = true ↔
      ((clean_string (getS r "CompanyNumber")).isSome = true ∧
        (clean_string (getS r "RegAddress.AddressLine1")).isSome = true ∧
        (clean_string (getS r "RegAddress.PostTown")).isSome = true ∧
        (clean_string (getS r "RegAddress.PostCode")).isSome = true)) ∧
    (∀ r : Row, isSkipCompany r = true ↔
      (clean_string (getS r "CompanyNumber")).isSome = false) ∧
    (∀ k : String × String × String,
      (((create_address_nodes_and_relationships st rows).1.addresses.val k).isSome = true ↔
        ((st.addresses.val k).isSome = true ∨
          ∃ r ∈ rows, ∃ p, addrParamOf r = some p ∧ addrKey p = k))) := by
  rw [create_address_nodes_and_relationships_eq st rows]
  refine ⟨rfl, rfl, rfl, addrParamOf_isSome_iff, ?_, ?_⟩
  · intro r
    unfold isSkipCompany classifyAddrRow
    rcases h1 : clean_string (getS r "CompanyNumber") with _ | cn <;>
      rcases h2 : clean_string (getS r "RegAddress.AddressLine1") with _ | l1 <;>
      rcases h3 : clean_string (getS r "RegAddress.PostTown") with _ | pt <;>
      rcases h4 : clean_string (getS r "RegAddress.PostCode") with _ | pc <;>
      simp [h1, h2, h3, h4]
  · intro k
    dsimp only
    rw [tableFold_val, oelse_isSome, lastValOf_isSome_iff]
    constructor
    · rintro (⟨v, hv⟩ | hst)
      · right
        unfold addrEntriesOf at hv
        rcases List.mem_map.mp hv with ⟨p, hp, hpv⟩
        rcases List.mem_filterMap.mp hp with ⟨r, hr, hrp⟩
        exact ⟨r, hr, p, hrp, congrArg Prod.fst hpv⟩
      · exact Or.inl hst
    · rintro (hst | ⟨r, hr, p, hrp, hk⟩)
      · exact Or.inr hst
      · refine Or.inl ⟨addrAttrsOf p, ?_⟩
        unfold addrEntriesOf
        exact List.mem_map.mpr ⟨p, List.mem_filterMap.mpr ⟨r, hr, hrp⟩, by rw [hk]⟩

/-- A row whose three composite address-key fields are all present but
whose CompanyNumber column is absent. -/
def addrOnlyRow : Row := fun col =>
  if col = "RegAddress.AddressLine1" then some "1 Main Street"
  else if col = "RegAddress.PostTown" then some "Leeds"
  else if col = "RegAddress.PostCode" then some "LS1 1AA"
  else none

/-- C3 counterexample: a row with all three composite key fields present
but no CompanyNumber is not processed by the address loader: it is
counted in the null-company skip counter and no Address node is created,
so the three composite key fields alone do not determine admissibility. -/
theorem address_loader_not_key_only :
    (clean_string (getS addrOnlyRow "RegAddress.AddressLine1")).isSome = true ∧
    (clean_string (getS addrOnlyRow "RegAddress.PostTown")).isSome = true ∧
    (clean_string (getS addrOnlyRow "RegAddress.PostCode")).isSome = true ∧
    (create_address_nodes_and_relationships emptyGraph [addrOnlyRow]).2.1 = 0 ∧
    (create_address_nodes_and_relationships emptyGraph [addrOnlyRow]).2.2.2 = 1 ∧
    (create_address_nodes_and_relationships emptyGraph [addrOnlyRow]).1.addresses.val
      ("1 Main Street", "Leeds", "LS1 1AA") = none := by
  decide

/-! ## The Company counter attributes (C10) -/

theorem counterField_ne_empty (row : Row) (col : String) : counterField row col ≠ "" := by
  unfold counterField
  cases row col with
  | none => decide
  | some s =>
    dsimp only
    split
    · decide
    · next hne => exact hne

theorem counterField_of_blank {row : Row} {col : String}
    (h : row col = none ∨ row col = some "") : counterField row col = "0" := by
  unfold counterField
  rcases h with h | h <;> simp [h]

/-- A row with a (deliberately) non-numeric mortgage-charge count. -/
def badCounterRow : Row := fun col =>
  if col = "CompanyNumber" then some "X1"
  else if col = "Mortgages.NumMortCharges" then some "abc"
  else none

/-- C10 counterexample: a loaded Company's counter attribute can be
null: with a non-numeric source value the "0" substitution does not
apply (the value is neither missing nor empty) and `toInteger` yields
null, which is what the `SET` stores. -/
theorem company_counter_null_on_nonnumeric :
    badCounterRow "Mortgages.NumMortCharges" = some "abc" ∧
    (((create_company_nodes emptyGraph [badCounterRow]).1.companies.val "X1").map
      (fun a => a.numMortCharges)) = some none := by
  decide

/-- C10 (amended): for every admissible row the company loader passes
each of the five counter columns through `row.get(col, "0") or "0"`, so
the string sent to the store is never empty and is `"0"` whenever the
source column is missing or empty; the stored attribute is `toInteger`
of that string — an integer (0) in the missing/empty case, but null when
the source holds a non-numeric value. -/
theorem company_counters_spec (row : Row) (p : CompanyParam)
    (h : toCompanyParam row = some p) :
    (counterField row "Mortgages.NumMortCharges" ≠ "" ∧
      (companyAttrsOf p).numMortCharges =
        cypherToInteger (counterField row "Mortgages.NumMortCharges") ∧
      ((row "Mortgages.NumMortCharges" = none ∨
          row "Mortgages.NumMortCharges" = some "") →
        (companyAttrsOf p).numMortCharges = some 0)) ∧
    (counterField row "Mortgages.NumMortOutstanding" ≠ "" ∧
      (companyAttrsOf p).numMortOutstanding =
        cypherToInteger (counterField row "Mortgages.NumMortOutstanding") ∧
      ((row "Mortgages.NumMortOutstanding" = none ∨
          row "Mortgages.NumMortOutstanding" = some "") →
        (companyAttrsOf p).numMortOutstanding = some 0)) ∧
    (counterField row "Mortgages.NumMortSatisfied" ≠ "" ∧
      (companyAttrsOf p).numMortSatisfied =
        cypherToInteger (counterField row "Mortgages.NumMortSatisfied") ∧
      ((row "Mortgages.NumMortSatisfied" = none ∨
          row "Mortgages.NumMortSatisfied" = some "") →
        (companyAttrsOf p).numMortSatisfied = some 0)) ∧
    (counterField row "LimitedPartnerships.NumGenPartners" ≠ "" ∧
      (companyAttrsOf p).numGenPartners =
        cypherToInteger (counterField row "LimitedPartnerships.NumGenPartners") ∧
      ((row "LimitedPartnerships.NumGenPartners" = none ∨
          row "LimitedPartnerships.NumGenPartners" = some "") →
        (companyAttrsOf p).numGenPartners = some 0)) ∧
    (counterField row "LimitedPartnerships.NumLimPartners" ≠ "" ∧
      (companyAttrsOf p).numLimPartners =
        cypherToInteger (counterField row "LimitedPartnerships.NumLimPartners") ∧
      ((row "LimitedPartnerships.NumLimPartners" = none ∨
          row "LimitedPartnerships.NumLimPartners" = some "") →
        (companyAttrsOf p).numLimPartners = some 0)) := by
  unfold toCompanyParam at h
  rcases hcn : clean_string (getS row "CompanyNumber") with _ | cn
  · rw [hcn] at h
    exact absurd h (by simp)
  · rw [hcn] at h
    obtain rfl := (Option.some.inj h).symm
    refine ⟨⟨counterField_ne_empty row _, rfl, ?_⟩,
      ⟨counterField_ne_empty row _, rfl, ?_⟩,
      ⟨counterField_ne_empty row _, rfl, ?_⟩,
      ⟨counterField_ne_empty row _, rfl, ?_⟩,
      ⟨counterField_ne_empty row _, rfl, ?_⟩⟩ <;>
    · intro hc
      show cypherToInteger (counterField row _) = some 0
      rw [counterField_of_blank hc]
      decide

/-- A row with only a CompanyNumber, used to instantiate C10. -/
def companyOnlyRow : Row := fun col =>
  if col = "CompanyNumber" then some "77" else none

def companyParam77 : CompanyParam :=
  { companyNumber := "77", name := none, category := none, status := none,
    countryOfOrigin := none, incorporationDate := none, dissolutionDate := none,
    uri := none, accountRefDay := none, accountRefMonth := none,
    accountsCategory := none, numMortCharges := "0", numMortOutstanding := "0",
    numMortSatisfied := "0", numGenPartners := "0", numLimPartners := "0" }

/-- C10 witness: the amended counter rule applied at a concrete admissible
row whose counter columns are absent. -/
theorem company_counters_spec_witness :
    toCompanyParam companyOnlyRow = some companyParam77 ∧
    (counterField companyOnlyRow "Mortgages.NumMortCharges" ≠ "" ∧
      (companyAttrsOf companyParam77).numMortCharges =
        cypherToInteger (counterField companyOnlyRow "Mortgages.NumMortCharges") ∧
      ((companyOnlyRow "Mortgages.NumMortCharges" = none ∨
          companyOnlyRow "Mortgages.NumMortCharges" = some "") →
        (companyAttrsOf companyParam77).numMortCharges = some 0)) :=
  ⟨by decide, (company_counters_spec companyOnlyRow companyParam77 (by decide)).1⟩

/-! ## The SIC pre-pass records first descriptions (C9) -/

/-- The parsed slot entry the claim compares the dict against: the code
and description whenever the slot parses to a non-absent code. -/
def sicEntryOf (txt : String) : Option (String × Option String) :=
  match parse_sic_code txt with
  | (some code, desc) => some (code, desc)
  | (none, _) => none

theorem extract_flatten :
    ∀ (rows : List Row) (m : List (String × Option String)),
      rows.foldl (fun m r => (sicSlotTexts r).foldl sicStep m) m =
        ((rows.map sicSlotTexts).flatten).foldl sicStep m
  | [], _ => rfl
  | r :: rows, m => by
    rw [List.foldl_cons, extract_flatten rows, List.map_cons, List.flatten_cons,
      List.foldl_append]

theorem sicStep_of_none {m : List (String × Option String)} {t : String}
    (hp : (parse_sic_code t).1 = none) : sicStep m t = m := by
  unfold sicStep
  rcases hq : parse_sic_code t with ⟨f, d⟩
  rw [hq] at hp
  subst hp
  rfl

theorem sicStep_of_new {m : List (String × Option String)} {t : String}
    {code : String} {desc : Option String} (hp : parse_sic_code t = (some code, desc))
    (hc : code ≠ "") (hm : List.lookup code m = none) :
    sicStep m t = m ++ [(code, desc)] := by
  unfold sicStep
  rw [hp]
  dsimp only
  rw [if_pos ⟨hc, hm⟩]

theorem sicStep_of_seen {m : List (String × Option String)} {t : String}
    {code : String} {desc : Option String} (hp : parse_sic_code t = (some code, desc))
    (hm : List.lookup code m ≠ none) : sicStep m t = m := by
  unfold sicStep
  rw [hp]
  dsimp only
  rw [if_neg (fun hand => hm hand.2)]

theorem sicStep_lookup :
    ∀ (txts : List String) (m : List (String × Option String)) (c : String),
      List.lookup c (txts.foldl sicStep m) =
        oelse (List.lookup c m)
          (((txts.filterMap sicEntryOf).find? (fun e => e.1 == c)).map Prod.snd)
  | [], m, c => by simp [oelse_none_right]
  | t :: txts, m, c => by
    rw [List.foldl_cons, List.filterMap_cons, sicStep_lookup txts (sicStep m t) c]
    rcases hp : parse_sic_code t with ⟨f, desc⟩
    cases f with
    | none =>
      rw [sicStep_of_none (by rw [hp])]
      rw [show sicEntryOf t = none from by unfold sicEntryOf; rw [hp]]
    | some code =>
      have hcode : code ≠ "" := parse_sic_code_fst_ne_empty (by rw [hp])
      rw [show sicEntryOf t = some (code, desc) from by unfold sicEntryOf; rw [hp]]
      by_cases hm : List.lookup code m = none
      · rw [sicStep_of_new hp hcode hm]
        by_cases hc : c = code
        · subst hc
          rw [lookup_append]
          rw [show List.lookup c [(c, desc)] = some desc from by simp [List.lookup]]
          rw [hm]
          rw [List.find?_cons_of_pos _ (by simp)]
          rfl
        · rw [lookup_append]
          rw [show List.lookup c [(code, desc)] = none from by
            simp [List.lookup, beq_false_of_ne hc]]
          rw [List.find?_cons_of_neg _ (by simpa using Ne.symm hc)]
          rw [oelse_none_right]
      · rw [sicStep_of_seen hp hm]
        by_cases hc : c = code
        · subst hc
          rcases hv : List.lookup c m with _ | v
          · exact absurd hv hm
          · rw [show oelse (some v)
                ((List.find? (fun e => e.1 == c) (List.filterMap sicEntryOf txts)).map
                  Prod.snd) = some v from rfl]
            rw [List.find?_cons_of_pos _ (by simp)]
            rfl
        · rw [List.find?_cons_of_neg _ (by simpa using Ne.symm hc)]

theorem sicStep_keys_nodup :
    ∀ (txts : List String) (m : List (String × Option String)),
      (m.map Prod.fst).Nodup → (((txts.foldl sicStep m).map Prod.fst).Nodup)
  | [], _, h => h
  | t :: txts, m, h => by
    rw [List.foldl_cons]
    apply sicStep_keys_nodup txts
    rcases hp : parse_sic_code t with ⟨f, desc⟩
    cases f with
    | none => rw [sicStep_of_none (by rw [hp])]; exact h
    | some code =>
      by_cases hm : List.lookup code m = none
      · rw [sicStep_of_new hp (parse_sic_code_fst_ne_empty (by rw [hp])) hm]
        rw [List.map_append]
        have hnot : code ∉ m.map Prod.fst := (lookup_eq_none_iff m code).mp hm
        simp [List.nodup_append, h, hnot]
      · rw [sicStep_of_seen hp hm]
        exact h

/-- C9: the classification pre-pass, scanning the 4 slot columns of every
row in file order, records exactly one entry per distinct non-absent code
(the key list has no duplicates), and the recorded description of each
code is the one of the first slot occurrence of that code across the
whole file — later occurrences never change it (the dict lookup equals
the first matching parsed slot entry). -/
theorem extract_sic_codes_spec (rows : List Row) :
    ((extract_and_create_sic_codes rows).map Prod.fst).Nodup ∧
    (∀ code : String,
      List.lookup code (extract_and_create_sic_codes rows) =
        ((((rows.map sicSlotTexts).flatten).filterMap sicEntryOf).find?
          (fun e => e.1 == code)).map Prod.snd) := by
  constructor
  · unfold extract_and_create_sic_codes
    rw [extract_flatten]
    exact sicStep_keys_nodup _ [] (by simp)
  · intro code
    unfold extract_and_create_sic_codes
    rw [extract_flatten, sicStep_lookup]
    rfl

end DataMapper
